import Mathlib

/-!
Verification of the StarRocks `JsonValue` core (`be/src/util/json.cpp`).

The C++ code stores each JSON document as a velocypack (vpack) binary blob and
implements construction, comparison, hashing and text (de)serialization on top
of the vpack library.  This file embeds the code shallowly:

* `VType` and its ordinals mirror the vpack `ValueType` enum (a third-party
  header not part of the snapshot; ordinals are the library's fixed ones).
* `VSlice` is a decoded vpack slice: exactly the value shapes this program can
  construct or parse, plus the `MinKey`/`MaxKey` sentinels.
* `sliceCompare`, `cmpDouble` and the `JsonValue` operations are translated
  line by line from `json.cpp`.
* Doubles are modelled exactly, as `Option ℚ` with `none` for NaN; the IEEE
  rounding of text formatting does not arise because renderings are exact.

Definitions whose doc comment starts with `Modelled from the spec:` replace
code that is not present in the snapshot (the project's vpack fork and
`json.h`); they follow the specification's description of that code.
-/

/-- Errors raised by the vpack layer and translated at public boundaries.
`NumberOutOfRange` is vpack's error for reading a `UInt` above `INT64_MAX`
through `getInt()`; `NoJsonEquivalent` is the Dumper's error for values with
no JSON rendering; `ParseError` stands for the parse-failure `Status`. -/
inductive VErr where
  | NumberOutOfRange
  | InvalidValueType
  | NoJsonEquivalent
  | ParseError
deriving DecidableEq, Repr

/-- The vpack `ValueType` tags reachable in this program: every tag a
`JsonValue` blob can carry (constructors and parsing) plus the comparator's
`MinKey`/`MaxKey` sentinels and `None` for the absent state. -/
inductive VType where
  | None
  | Null
  | Bool
  | Array
  | Object
  | Double
  | MinKey
  | MaxKey
  | Int
  | UInt
  | SmallInt
  | String
deriving DecidableEq, Repr

/-- The numeric value of each `ValueType` enum constant in the vpack header
(order of declaration: None, Illegal, Null, Bool, Array, Object, Double,
UTCDate, External, MinKey, MaxKey, Int, UInt, SmallInt, String, ...).
`sliceCompare` subtracts these raw ordinals for mismatched kinds. -/
def typeOrd : VType → Int
  | .None => 0
  | .Null => 2
  | .Bool => 3
  | .Array => 4
  | .Object => 5
  | .Double => 6
  | .MinKey => 9
  | .MaxKey => 10
  | .Int => 11
  | .UInt => 12
  | .SmallInt => 13
  | .String => 14

/-- vpack's `valueTypeGroup`: the four numeric types share one group and every
other type is alone in its own group.  Only equality of groups is ever used by
the code under verification. -/
def valueTypeGroup : VType → Nat
  | .None => 0
  | .Null => 2
  | .Bool => 3
  | .Double => 4
  | .Int => 4
  | .UInt => 4
  | .SmallInt => 4
  | .String => 5
  | .Array => 6
  | .Object => 7
  | .MinKey => 10
  | .MaxKey => 11

mutual

/-- A decoded vpack slice.  Numbers keep their stored subtype (`SmallInt`,
`Int`, `UInt`, `Double`); a double payload is `Option ℚ`, with `none` for NaN
(every finite double is a rational, and all arithmetic the code performs on
doubles is exact).  `vNone` is the none slice, used for the absent state. -/
inductive VSlice where
  | vNone
  | vNull
  | vBool (b : Bool)
  | vSmallInt (n : Int)
  | vInt (n : Int)
  | vUInt (n : Nat)
  | vDouble (q : Option ℚ)
  | vString (s : List Char)
  | vArray (xs : VList)
  | vObject (fs : VFields)
  | vMinKey
  | vMaxKey

/-- The element list of an array slice. -/
inductive VList where
  | nil
  | cons (x : VSlice) (xs : VList)

/-- The key/value field list of an object slice, in stored order. -/
inductive VFields where
  | nil
  | cons (k : List Char) (v : VSlice) (fs : VFields)

end

deriving instance DecidableEq for VSlice, VList, VFields

instance {ε α : Type} [DecidableEq ε] [DecidableEq α] : DecidableEq (Except ε α) :=
  fun a b =>
  match a, b with
  | .ok x, .ok y => decidable_of_iff (x = y) (by simp)
  | .error e, .error f => decidable_of_iff (e = f) (by simp)
  | .ok _, .error _ => isFalse (by simp)
  | .error _, .ok _ => isFalse (by simp)

/-- The root tag of a slice (`Slice::type()`). -/
def VSlice.vtype : VSlice → VType
  | .vNone => .None
  | .vNull => .Null
  | .vBool _ => .Bool
  | .vSmallInt _ => .SmallInt
  | .vInt _ => .Int
  | .vUInt _ => .UInt
  | .vDouble _ => .Double
  | .vString _ => .String
  | .vArray _ => .Array
  | .vObject _ => .Object
  | .vMinKey => .MinKey
  | .vMaxKey => .MaxKey

/-- `Slice::isInteger()`: the three integer subtypes. -/
def VSlice.isIntegerSlice (s : VSlice) : Bool :=
  s.vtype = .SmallInt ∨ s.vtype = .Int ∨ s.vtype = .UInt

/-- `Slice::isNumber()`: integers or double. -/
def VSlice.isNumberSlice (s : VSlice) : Bool :=
  s.isIntegerSlice ∨ s.vtype = .Double

/-- Largest signed 64-bit value, the bound in vpack's `getInt()`. -/
def int64Max : Int := 9223372036854775807

/-- `Slice::getInt()`: exact for `SmallInt`/`Int`; for a `UInt` above
`INT64_MAX` vpack throws `NumberOutOfRange`; other types are a type error.
(`json.cpp` only calls it under an `isInteger` guard.) -/
def getIntSlice : VSlice → Except VErr Int
  | .vSmallInt n => .ok n
  | .vInt n => .ok n
  | .vUInt n => if (n : Int) ≤ int64Max then .ok (n : Int) else .error .NumberOutOfRange
  | _ => .error .InvalidValueType

/-- `Slice::getNumber<double>()` restricted to the slices `json.cpp` applies
it to (numbers): the numeric value as an exact rational, `none` for NaN. -/
def getNumberQ : VSlice → Except VErr (Option ℚ)
  | .vSmallInt n => .ok (some (n : ℚ))
  | .vInt n => .ok (some (n : ℚ))
  | .vUInt n => .ok (some (n : ℚ))
  | .vDouble q => .ok q
  | _ => .error .InvalidValueType

/-- `cmpDouble` (json.cpp:172): `std::isless`/`std::isgreater`, so any
comparison involving NaN falls through to `0`. -/
def cmpDouble (a b : Option ℚ) : Int :=
  match a, b with
  | some x, some y => if x < y then -1 else if y < x then 1 else 0
  | _, _ => 0

/-- Truncation of a C `int64_t` expression to the C `int` return type of
`sliceCompare` (two's-complement wraparound). -/
def wrap32 (x : Int) : Int := (x + 2 ^ 31) % 2 ^ 32 - 2 ^ 31

/-- `bool` to `int` conversion in `left.getBool() - right.getBool()`. -/
def boolInt : Bool → Int
  | false => 0
  | true => 1

/-- `std::string_view::compare` on raw bytes: the difference of the first
differing characters, else the length difference.  Only the sign is
portable; the magnitudes model the common libstdc++/glibc behaviour. -/
def strCompare : List Char → List Char → Int
  | [], [] => 0
  | [], t => -(t.length : Int)
  | s, [] => (s.length : Int)
  | c :: s, d :: t =>
    if c = d then strCompare s t else (c.toNat : Int) - (d.toNat : Int)

/-- The scalar/mismatch part of `sliceCompare` (json.cpp:208-247): everything
after the object-vs-object and array-vs-array branches.  It has no recursion,
so it is split out of the mutual block. -/
def scalarCompare (l r : VSlice) : Except VErr Int :=
  if valueTypeGroup l.vtype = valueTypeGroup r.vtype then
    if l.vtype = r.vtype then
      match l, r with
      | .vBool a, .vBool b => .ok (boolInt a - boolInt b)
      | .vSmallInt a, .vSmallInt b => .ok (wrap32 (a - b))
      | .vInt a, .vInt b => .ok (wrap32 (a - b))
      | .vUInt a, .vUInt b =>
        match getIntSlice (.vUInt a), getIntSlice (.vUInt b) with
        | .ok x, .ok y => .ok (wrap32 (x - y))
        | .error e, _ => .error e
        | _, .error e => .error e
      | .vDouble a, .vDouble b => .ok (cmpDouble a b)
      | .vString a, .vString b => .ok (strCompare a b)
      | _, _ => .ok 0
    else if l.isIntegerSlice && r.isIntegerSlice then
      match getIntSlice l, getIntSlice r with
      | .ok x, .ok y => .ok (wrap32 (x - y))
      | .error e, _ => .error e
      | _, .error e => .error e
    else
      match getNumberQ l, getNumberQ r with
      | .ok x, .ok y => .ok (cmpDouble x y)
      | .error e, _ => .error e
      | _, .error e => .error e
  else
    if l.vtype = .MinKey then .ok (-1)
    else if r.vtype = .MinKey then .ok 1
    else if l.vtype = .MaxKey then .ok 1
    else if r.vtype = .MaxKey then .ok (-1)
    else .ok (typeOrd l.vtype - typeOrd r.vtype)

/-- `Slice::get(key)` on an object: the value of the first field with that
key, or the none result when the key is absent (modelled at the stored-order
level; the code only asks found-or-not and recurses on the value). -/
def lookupField : VFields → List Char → Option VSlice
  | .nil, _ => none
  | .cons k v fs, key => if k = key then some v else lookupField fs key

/-- `Slice::at(idx)` on an array, as used at json.cpp:198-199: the element at
`idx`, or the none result past the end (the caller tests `isNone`). -/
def vget? : VList → Nat → Option VSlice
  | .nil, _ => none
  | .cons x _, 0 => some x
  | .cons _ xs, n + 1 => vget? xs n

mutual

/-- `sliceCompare` (json.cpp:181-249): object fields in left stored order with
right key lookup, arrays positionally, everything else via `scalarCompare`. -/
def sliceCompare : VSlice → VSlice → Except VErr Int
  | .vObject fs, .vObject gs => objLoop fs gs
  | .vArray xs, .vArray ys => arrayLoop xs ys 0
  | l, r => scalarCompare l r

/-- The object-vs-object loop (json.cpp:183-194): iterate the left fields in
stored order; a key missing on the right returns 1 immediately; otherwise
recurse and stop at the first non-zero result. -/
def objLoop : VFields → VFields → Except VErr Int
  | .nil, _ => .ok 0
  | .cons k v fs, gs =>
    match lookupField gs k with
    | some w =>
      match sliceCompare v w with
      | .ok x => if x ≠ 0 then .ok x else objLoop fs gs
      | .error e => .error e
    | none => .ok 1

/-- The array-vs-array loop (json.cpp:196-207): iterate the left elements,
pairing index `idx` on the right; a missing right element is skipped (with
`idx` still advancing); stop at the first non-zero result. -/
def arrayLoop : VList → VList → Nat → Except VErr Int
  | .nil, _, _ => .ok 0
  | .cons x xs, ys, idx =>
    match vget? ys idx with
    | some y =>
      match sliceCompare x y with
      | .ok c => if c ≠ 0 then .ok c else arrayLoop xs ys (idx + 1)
      | .error e => .error e
    | none => arrayLoop xs ys (idx + 1)

end

/-- The JSON value type: in the code, an owned vpack blob; here, the decoded
slice it denotes.  The absent state (empty blob, spec §3) is `vNone`. -/
abbrev JsonValue := VSlice

/-- `JsonValue::from_null` (json.cpp:32). -/
def JsonValue.from_null : JsonValue := .vNull

/-- `JsonValue::from_bool` (json.cpp:48). -/
def JsonValue.from_bool (b : Bool) : JsonValue := .vBool b

/-- `JsonValue::from_int` (json.cpp:36): the vpack Builder stores -6..9 in the
compact `SmallInt` form and other values as `Int`.  (No claim depends on the
exact small-integer cutoff: `SmallInt` and `Int` compare identically.) -/
def JsonValue.from_int (v : Int) : JsonValue :=
  if -6 ≤ v ∧ v ≤ 9 then .vSmallInt v else .vInt v

/-- `JsonValue::from_uint` (json.cpp:42): 0..9 as `SmallInt`, larger values as
`UInt` (same caveat as `from_int`). -/
def JsonValue.from_uint (v : Nat) : JsonValue :=
  if v ≤ 9 then .vSmallInt (v : Int) else .vUInt v

/-- `JsonValue::from_double` (json.cpp:54); `none` is NaN. -/
def JsonValue.from_double (q : Option ℚ) : JsonValue := .vDouble q

/-- `JsonValue::from_string` (json.cpp:60). -/
def JsonValue.from_string (s : List Char) : JsonValue := .vString s

/-- `JsonValue::compare(const JsonValue&)` (json.cpp:251-255): decode both
blobs and run `sliceCompare`; note the body has no exception handler. -/
def JsonValue.compare (l r : JsonValue) : Except VErr Int := sliceCompare l r

/-- The category ordinal of the specification's mismatched-kind ranking
(spec §4.2): null < numbers < string < array < object.  Kinds outside the
ranking (booleans, sentinels, the absent tag) have no ordinal. -/
def specCategoryOrd : VType → Option Nat
  | .Null => some 0
  | .Double => some 1
  | .Int => some 1
  | .UInt => some 1
  | .SmallInt => some 1
  | .String => some 2
  | .Array => some 3
  | .Object => some 4
  | _ => none

/-- The signed-subtraction rule that `sliceCompare` applies to a pair of
integer slices of different subtypes (json.cpp:228-229). -/
def intPairCompare (l r : VSlice) : Except VErr Int :=
  match getIntSlice l, getIntSlice r with
  | .ok x, .ok y => .ok (wrap32 (x - y))
  | .error e, _ => .error e
  | _, .error e => .error e

/-- The coerce-both-to-double rule for mixed numeric subtypes
(json.cpp:230-231): compare the exact values through `cmpDouble`. -/
def doublePairCompare (l r : VSlice) : Except VErr Int :=
  match getNumberQ l, getNumberQ r with
  | .ok x, .ok y => .ok (cmpDouble x y)
  | .error e, _ => .error e
  | _, .error e => .error e

/-! ### Text rendering

`JsonValue::to_string` (json.cpp:145-157) returns `""` for an empty blob and
otherwise renders through the vpack Dumper (`slice.toJson`), which is not part
of the snapshot.  The renderer below is modelled from the spec: canonical
single-line JSON text (§4.4), strings with the mandatory JSON escapes, and
numbers written exactly (every finite double has a finite decimal form). -/

/-- The character of decimal digit `d` (`d < 10`). -/
def digitChar (d : Nat) : Char := Char.ofNat (48 + d)

/-- Lowercase hexadecimal digit character (`d < 16`). -/
def hexDigitChar (d : Nat) : Char :=
  if d < 10 then digitChar d else Char.ofNat (97 + (d - 10))

/-- Decimal digits of `n`, most significant first. -/
def natDigits (n : Nat) : List Char :=
  if n = 0 then ['0'] else (Nat.digits 10 n).reverse.map digitChar

/-- Decimal rendering of a signed integer. -/
def renderInt (n : Int) : List Char :=
  if n < 0 then '-' :: natDigits n.natAbs else natDigits n.natAbs

/-- The smallest exponent `k` (bounded by 1200, beyond every double) such
that `q * 10 ^ k` is an integer, when one exists: the length of the exact
decimal fraction of `q`.  Every finite double admits one (`k ≤ 1074`). -/
def decExp (q : ℚ) : Option Nat :=
  (List.range 1200).find? (fun k => (q * 10 ^ k).den == 1)

/-- The digits of `m` padded with leading zeros to at least `k + 1` places. -/
def padDigits (m k : Nat) : List Char :=
  List.replicate (k + 1 - (natDigits m).length) '0' ++ natDigits m

/-- The unsigned decimal body of a non-negative rational `a` whose `k`-digit
scaling `a * 10 ^ k` is an integer: the digits of that integer with a decimal
point `k` places from the right (`".0"` when `k = 0`). -/
def decBody (a : ℚ) (k : Nat) : List Char :=
  if k = 0 then natDigits (a * 10 ^ k).num.toNat ++ ['.', '0']
  else
    (padDigits (a * 10 ^ k).num.toNat k).take
        ((padDigits (a * 10 ^ k).num.toNat k).length - k) ++
      '.' ::
        (padDigits (a * 10 ^ k).num.toNat k).drop
          ((padDigits (a * 10 ^ k).num.toNat k).length - k)

/-- Exact decimal rendering of a finite double value: optional sign, integer
digits, a dot, and the exact fraction digits (`".0"` when integral). -/
def renderDouble (q : ℚ) : List Char :=
  let body := decBody |q| ((decExp |q|).getD 0)
  if q < 0 then '-' :: body else body

/-- JSON string escaping: quote and backslash get a backslash, control
characters become `\u00XX`, everything else is written raw. -/
def escChar (c : Char) : List Char :=
  if c = '"' then ['\\', '"']
  else if c = '\\' then ['\\', '\\']
  else if c.toNat < 32 then
    ['\\', 'u', '0', '0', hexDigitChar (c.toNat / 16), hexDigitChar (c.toNat % 16)]
  else [c]

/-- Escape every character of a string body. -/
def escapeStr : List Char → List Char
  | [] => []
  | c :: s => escChar c ++ escapeStr s

/-- A quoted, escaped JSON string. -/
def renderStr (s : List Char) : List Char := '"' :: escapeStr s ++ ['"']

mutual

/-- Modelled from the spec: the vpack Dumper's canonical single-line JSON
rendering of a slice (§4.4).  The `vNone`/NaN/sentinel branches are
placeholders: `to_string` rejects those values before rendering, as the
Dumper has no JSON equivalent for them. -/
def render : VSlice → List Char
  | .vNone => []
  | .vNull => ['n', 'u', 'l', 'l']
  | .vBool true => ['t', 'r', 'u', 'e']
  | .vBool false => ['f', 'a', 'l', 's', 'e']
  | .vSmallInt n => renderInt n
  | .vInt n => renderInt n
  | .vUInt n => natDigits n
  | .vDouble none => []
  | .vDouble (some q) => renderDouble q
  | .vString s => renderStr s
  | .vArray xs => '[' :: renderItems xs ++ [']']
  | .vObject fs => '\x7b' :: renderFields fs ++ ['\x7d']
  | .vMinKey => []
  | .vMaxKey => []

/-- Comma-separated renderings of array elements. -/
def renderItems : VList → List Char
  | .nil => []
  | .cons x .nil => render x
  | .cons x xs => render x ++ ',' :: renderItems xs

/-- Comma-separated `"key":value` renderings of object fields. -/
def renderFields : VFields → List Char
  | .nil => []
  | .cons k v .nil => renderStr k ++ ':' :: render v
  | .cons k v fs => renderStr k ++ ':' :: render v ++ ',' :: renderFields fs

end

mutual

/-- The slices the Dumper cannot render as JSON, making `toJson` fail with
`NoJsonEquivalent`: the none slice, the sentinels, and NaN doubles.  The
`decExp` clause additionally rejects rationals that are not exact decimals,
which no finite double produces (a model artifact, not a code path). -/
def hasUnsupported : VSlice → Bool
  | .vNone => true
  | .vMinKey => true
  | .vMaxKey => true
  | .vDouble none => true
  | .vDouble (some q) => (decExp |q|).isNone
  | .vArray xs => hasUnsupportedList xs
  | .vObject fs => hasUnsupportedFields fs
  | _ => false

/-- `hasUnsupported` over array elements. -/
def hasUnsupportedList : VList → Bool
  | .nil => false
  | .cons x xs => hasUnsupported x || hasUnsupportedList xs

/-- `hasUnsupported` over object field values. -/
def hasUnsupportedFields : VFields → Bool
  | .nil => false
  | .cons _ v fs => hasUnsupported v || hasUnsupportedFields fs

end

/-- `JsonValue::to_string` (json.cpp:145-157): an empty blob (the absent
state, spec §3) renders as empty text; otherwise the Dumper renders the
slice, failing on values with no JSON equivalent. -/
def JsonValue.to_string (v : JsonValue) : Except VErr (List Char) :=
  if v = .vNone then .ok []
  else if hasUnsupported v then .error .NoJsonEquivalent
  else .ok (render v)

/-! ### Text parsing

`JsonValue::parse` (json.cpp:18-30) maps empty input to the absent value and
otherwise runs `vpack::Parser::fromJson`, which is not part of the snapshot.
The recursive-descent parser below is modelled from the spec: standard JSON
grammar over UTF-8 text (§4.1, §6), rebuilding the number subtypes the
encoding preserves.  (Exponent notation, which the canonical renderer never
emits, is not modelled.) -/

/-- JSON whitespace. -/
def isWs (c : Char) : Bool := c = ' ' || c = '\n' || c = '\t' || c = '\r'

/-- Skip leading JSON whitespace. -/
def skipWs (cs : List Char) : List Char := cs.dropWhile isWs

/-- ASCII decimal digit. -/
def isDigitC (c : Char) : Bool := 48 ≤ c.toNat && c.toNat ≤ 57

/-- Value of an ASCII decimal digit. -/
def digitVal (c : Char) : Nat := c.toNat - 48

/-- Value of a most-significant-first digit string. -/
def digitsVal (ds : List Char) : Nat := ds.foldl (fun a c => a * 10 + digitVal c) 0

/-- Value of a hexadecimal digit character, either case. -/
def hexVal (c : Char) : Option Nat :=
  if isDigitC c then some (digitVal c)
  else if 97 ≤ c.toNat && c.toNat ≤ 102 then some (c.toNat - 87)
  else if 65 ≤ c.toNat && c.toNat ≤ 70 then some (c.toNat - 55)
  else none

/-- Parse a string body after the opening quote: characters up to the closing
quote, decoding the JSON escapes. -/
def parseStrBody : List Char → Option (List Char × List Char)
  | [] => none
  | c :: t =>
    if c = '"' then some ([], t)
    else if c = '\\' then
      match t with
      | [] => none
      | e :: t2 =>
        if e = '"' then (parseStrBody t2).map (fun p => ('"' :: p.1, p.2))
        else if e = '\\' then (parseStrBody t2).map (fun p => ('\\' :: p.1, p.2))
        else if e = '/' then (parseStrBody t2).map (fun p => ('/' :: p.1, p.2))
        else if e = 'b' then (parseStrBody t2).map (fun p => ('\x08' :: p.1, p.2))
        else if e = 'f' then (parseStrBody t2).map (fun p => ('\x0c' :: p.1, p.2))
        else if e = 'n' then (parseStrBody t2).map (fun p => ('\n' :: p.1, p.2))
        else if e = 'r' then (parseStrBody t2).map (fun p => ('\x0d' :: p.1, p.2))
        else if e = 't' then (parseStrBody t2).map (fun p => ('\t' :: p.1, p.2))
        else if e = 'u' then
          match t2 with
          | h1 :: h2 :: h3 :: h4 :: t3 =>
            match hexVal h1, hexVal h2, hexVal h3, hexVal h4 with
            | some a, some b, some c2, some d =>
              (parseStrBody t3).map
                (fun p => (Char.ofNat (((a * 16 + b) * 16 + c2) * 16 + d) :: p.1, p.2))
            | _, _, _, _ => none
          | _ => none
        else none
    else (parseStrBody t).map (fun p => (c :: p.1, p.2))

/-- Modelled from the spec: the number subtype the parser stores (§3, §4.1):
small integers in the compact `SmallInt` form, signed 64-bit values as `Int`,
larger non-negative values as `UInt`. -/
def mkIntSlice (v : Int) : VSlice :=
  if 0 ≤ v then
    if v ≤ 9 then .vSmallInt v
    else if v ≤ int64Max then .vInt v
    else .vUInt v.toNat
  else
    if -6 ≤ v then .vSmallInt v else .vInt v

/-- Split a leading minus sign off a number. -/
def splitSign : List Char → Bool × List Char
  | '-' :: t => (true, t)
  | cs => (false, cs)

/-- Parse the digits of a JSON number after the optional sign: integer
digits, then an optional exact decimal fraction.  A fraction produces a
double, otherwise an integer. -/
def parseNumberBody (neg : Bool) (cs1 : List Char) : Option (VSlice × List Char) :=
  let ds := cs1.takeWhile isDigitC
  let rest1 := cs1.dropWhile isDigitC
  if ds.isEmpty then none
  else
    match rest1 with
    | '.' :: cs2 =>
      let fs := cs2.takeWhile isDigitC
      let rest2 := cs2.dropWhile isDigitC
      if fs.isEmpty then none
      else
        let q : ℚ := (digitsVal ds : ℚ) + (digitsVal fs : ℚ) / (10 : ℚ) ^ fs.length
        some (.vDouble (some (if neg then -q else q)), rest2)
    | _ =>
      let v : Int := if neg then -(digitsVal ds : Int) else (digitsVal ds : Int)
      some (mkIntSlice v, rest1)

/-- Parse a JSON number: optional minus, then the digit body. -/
def parseNumber (cs : List Char) : Option (VSlice × List Char) :=
  let p := splitSign cs
  parseNumberBody p.1 p.2

mutual

/-- Parse one JSON value (fuelled; the fuel strictly exceeds twice the input
length at the top-level call, which every derivation fits in). -/
def parseVal : Nat → List Char → Option (VSlice × List Char)
  | 0, _ => none
  | f + 1, cs0 =>
    match skipWs cs0 with
    | [] => none
    | c :: t =>
      if c = 'n' then
        match t with
        | 'u' :: 'l' :: 'l' :: r => some (.vNull, r)
        | _ => none
      else if c = 't' then
        match t with
        | 'r' :: 'u' :: 'e' :: r => some (.vBool true, r)
        | _ => none
      else if c = 'f' then
        match t with
        | 'a' :: 'l' :: 's' :: 'e' :: r => some (.vBool false, r)
        | _ => none
      else if c = '"' then (parseStrBody t).map (fun p => (.vString p.1, p.2))
      else if c = '[' then
        match skipWs t with
        | ']' :: r => some (.vArray .nil, r)
        | _ => (parseItems f t).map (fun p => (.vArray p.1, p.2))
      else if c = '\x7b' then
        match skipWs t with
        | '\x7d' :: r => some (.vObject .nil, r)
        | _ => (parseFields f t).map (fun p => (.vObject p.1, p.2))
      else if c = '-' || isDigitC c then parseNumber (c :: t)
      else none

/-- Parse the non-empty element list of an array, including the closing
bracket. -/
def parseItems : Nat → List Char → Option (VList × List Char)
  | 0, _ => none
  | f + 1, cs =>
    match parseVal f cs with
    | none => none
    | some (v, r) =>
      match skipWs r with
      | ',' :: r2 =>
        match parseItems f r2 with
        | some (xs, r3) => some (.cons v xs, r3)
        | none => none
      | ']' :: r2 => some (.cons v .nil, r2)
      | _ => none

/-- Parse the non-empty field list of an object, including the closing
brace. -/
def parseFields : Nat → List Char → Option (VFields × List Char)
  | 0, _ => none
  | f + 1, cs =>
    match skipWs cs with
    | '"' :: r =>
      match parseStrBody r with
      | none => none
      | some (k, r1) =>
        match skipWs r1 with
        | ':' :: r2 =>
          match parseVal f r2 with
          | none => none
          | some (v, r3) =>
            match skipWs r3 with
            | ',' :: r4 =>
              match parseFields f r4 with
              | some (fsx, r5) => some (.cons k v fsx, r5)
              | none => none
            | '\x7d' :: r4 => some (.cons k v .nil, r4)
            | _ => none
        | _ => none
    | _ => none

end

/-- The body of `parseVal` after fuel and whitespace handling, as a plain
function of the first character (used to state unfolding equations). -/
def valDispatch (f : Nat) (c : Char) (t : List Char) : Option (VSlice × List Char) :=
  if c = 'n' then
    match t with
    | 'u' :: 'l' :: 'l' :: r => some (.vNull, r)
    | _ => none
  else if c = 't' then
    match t with
    | 'r' :: 'u' :: 'e' :: r => some (.vBool true, r)
    | _ => none
  else if c = 'f' then
    match t with
    | 'a' :: 'l' :: 's' :: 'e' :: r => some (.vBool false, r)
    | _ => none
  else if c = '"' then (parseStrBody t).map (fun p => (.vString p.1, p.2))
  else if c = '[' then
    match skipWs t with
    | ']' :: r => some (.vArray .nil, r)
    | _ => (parseItems f t).map (fun p => (.vArray p.1, p.2))
  else if c = '\x7b' then
    match skipWs t with
    | '\x7d' :: r => some (.vObject .nil, r)
    | _ => (parseFields f t).map (fun p => (.vObject p.1, p.2))
  else if c = '-' || isDigitC c then parseNumber (c :: t)
  else none

/-- The continuation of `parseItems` after one element has been parsed. -/
def itemsStep (f : Nat) (v : VSlice) (r : List Char) : Option (VList × List Char) :=
  match skipWs r with
  | ',' :: r2 =>
    match parseItems f r2 with
    | some (xs, r3) => some (.cons v xs, r3)
    | none => none
  | ']' :: r2 => some (.cons v .nil, r2)
  | _ => none

/-- The continuation of `parseFields` after one field has been parsed. -/
def fieldsStep (f : Nat) (k : List Char) (v : VSlice) (r : List Char) :
    Option (VFields × List Char) :=
  match skipWs r with
  | ',' :: r4 =>
    match parseFields f r4 with
    | some (fsx, r5) => some (.cons k v fsx, r5)
    | none => none
  | '\x7d' :: r4 => some (.cons k v .nil, r4)
  | _ => none

/-- What may follow a complete rendered value: end of input, or a closing
delimiter of the enclosing composite.  (Never a digit or a dot, so a number
parse stops exactly at the value's boundary.) -/
def itemDelim : List Char → Bool
  | [] => true
  | c :: _ => c = ',' || c = ']' || c = '\x7d'

/-- Modelled from the spec: `vpack::Parser::fromJson` on a whole document -
one JSON value, possibly surrounded by whitespace. -/
def jsonParse (cs : List Char) : Option VSlice :=
  match parseVal (2 * cs.length + 2) cs with
  | some (v, r) => if skipWs r = [] then some v else none
  | none => none

/-- `JsonValue::parse` (json.cpp:18-30): empty input yields the absent value
(a none slice over an empty blob, spec §3/§4.1); otherwise the text is parsed
and a failure becomes the parse-error status. -/
def JsonValue.parse (src : List Char) : Except VErr JsonValue :=
  if src.isEmpty then .ok .vNone
  else
    match jsonParse src with
    | some v => .ok v
    | none => .error .ParseError

/-- Modelled from the spec: the `JsonType` tag enumeration of `json.h` (not
in the snapshot), with a distinct tag for the absent state (§8, scenario 5).
The sentinels never occur in a stored value; their mapping is immaterial. -/
inductive JsonType where
  | jsonNull
  | jsonBool
  | jsonNumber
  | jsonString
  | jsonArray
  | jsonObject
  | jsonAbsent
deriving DecidableEq, Repr

/-- Modelled from the spec: `fromVPackType` of `json.h` - the root tag of a
blob mapped to the public `JsonType`, reading `None` as the absent tag. -/
def fromVPackType : VType → JsonType
  | .None => .jsonAbsent
  | .Null => .jsonNull
  | .Bool => .jsonBool
  | .Double => .jsonNumber
  | .Int => .jsonNumber
  | .UInt => .jsonNumber
  | .SmallInt => .jsonNumber
  | .String => .jsonString
  | .Array => .jsonArray
  | .Object => .jsonObject
  | .MinKey => .jsonAbsent
  | .MaxKey => .jsonAbsent

/-- `JsonValue::get_type` (json.cpp:282-284): the root tag, translated. -/
def JsonValue.get_type (v : JsonValue) : JsonType := fromVPackType v.vtype

/-- `JsonValue::is_null` (json.cpp:310-312): `Slice::isNull()`, true exactly
for the JSON `null` root tag. -/
def JsonValue.is_null (v : JsonValue) : Bool := v.vtype = .Null

/-! ### Deep equality and the round trip -/

/-- The numeric value carried by a number slice (`none` for NaN and for
non-numbers). -/
def numPayload : VSlice → Option ℚ
  | .vSmallInt n => some (n : ℚ)
  | .vInt n => some (n : ℚ)
  | .vUInt n => some (n : ℚ)
  | .vDouble q => q
  | _ => none

mutual

/-- Modelled from the spec: deep equality of decoded documents (§4.1's
round-trip contract. "byte-identical re-encoding is NOT required"):
structural equality, with numeric scalars compared by value so that an
equal number may come back under a different stored subtype. -/
def deepEq : VSlice → VSlice → Bool
  | .vArray xs, .vArray ys => deepEqList xs ys
  | .vObject fs, .vObject gs => deepEqFields fs gs
  | l, r =>
    if l.isNumberSlice && r.isNumberSlice then decide (numPayload l = numPayload r)
    else decide (l = r)

/-- `deepEq` over array elements, positionally. -/
def deepEqList : VList → VList → Bool
  | .nil, .nil => true
  | .cons x xs, .cons y ys => deepEq x y && deepEqList xs ys
  | _, _ => false

/-- `deepEq` over object fields, in order, with equal keys. -/
def deepEqFields : VFields → VFields → Bool
  | .nil, .nil => true
  | .cons k v fs, .cons k2 w gs => decide (k = k2) && deepEq v w && deepEqFields fs gs
  | _, _ => false

end

mutual

/-- The value the parser gives back for a rendered slice: the same document
with every integer re-stored under the subtype `mkIntSlice` chooses. -/
def normSlice : VSlice → VSlice
  | .vSmallInt n => mkIntSlice n
  | .vInt n => mkIntSlice n
  | .vUInt n => mkIntSlice (n : Int)
  | .vArray xs => .vArray (normSliceList xs)
  | .vObject fs => .vObject (normSliceFields fs)
  | v => v

/-- `normSlice` over array elements. -/
def normSliceList : VList → VList
  | .nil => .nil
  | .cons x xs => .cons (normSlice x) (normSliceList xs)

/-- `normSlice` over object fields. -/
def normSliceFields : VFields → VFields
  | .nil => .nil
  | .cons k v fs => .cons k (normSlice v) (normSliceFields fs)

end

/-- The round trip of the spec's §8: serialize, reparse, compare deeply. -/
def roundTrips (v : JsonValue) : Bool :=
  match v.to_string with
  | .ok s =>
    match JsonValue.parse s with
    | .ok w => deepEq w v
    | .error _ => false
  | .error _ => false

/-! ### Spec-side comparison policies (object and array) -/

/-- The object policy as the spec words it (§4.2): walk the left fields in
stored order; a key absent on the right makes the left greater immediately;
otherwise recurse and stop at the first non-zero result; if nothing triggers,
the result is 0 even when the right has extra fields. -/
def objectCompareSpec : VFields → VFields → Except VErr Int
  | .nil, _ => .ok 0
  | .cons k v fs, gs =>
    match lookupField gs k with
    | none => .ok 1
    | some w =>
      match sliceCompare v w with
      | .ok x => if x ≠ 0 then .ok x else objectCompareSpec fs gs
      | .error e => .error e

/-- The array policy as the spec words it (§4.2): positional comparison over
the first `min(len_left, len_right)` elements only, stopping at the first
non-zero result; a length difference alone never decides. -/
def arrayCompareSpec : VList → VList → Except VErr Int
  | .nil, _ => .ok 0
  | .cons _ _, .nil => .ok 0
  | .cons x xs, .cons y ys =>
    match sliceCompare x y with
    | .ok c => if c ≠ 0 then .ok c else arrayCompareSpec xs ys
    | .error e => .error e

/-- Drop the first `idx` elements. -/
def vdrop : Nat → VList → VList
  | 0, ys => ys
  | _ + 1, .nil => .nil
  | n + 1, .cons _ ys => vdrop n ys

/-- C1 (counterexample): `from_int 1` against the empty array is a mismatched
non-sentinel pair with spec category ordinals 1 (numbers) and 3 (array), so
the claim demands a negative result; the code returns
`(int)SmallInt - (int)Array = 13 - 4 = 9`, which is positive. -/
theorem c1_category_ranking_counterexample :
    valueTypeGroup (JsonValue.from_int 1).vtype ≠ valueTypeGroup (VSlice.vArray .nil).vtype ∧
    specCategoryOrd (JsonValue.from_int 1).vtype = some 1 ∧
    specCategoryOrd (VSlice.vArray .nil).vtype = some 3 ∧
    sliceCompare (JsonValue.from_int 1) (.vArray .nil) = .ok 9 ∧
    Int.sign 9 ≠ Int.sign ((1 : Int) - 3) := by
  decide

/-- C1 (amended): for every mismatched-kind, non-sentinel pair the result is
the difference of the raw vpack `ValueType` ordinals, which orders the kinds
null < array < object < double < signed-int < unsigned-int < small-int <
string - not the spec's category ranking. -/
theorem c1_category_ranking_amended (l r : VSlice)
    (hg : valueTypeGroup l.vtype ≠ valueTypeGroup r.vtype)
    (hl1 : l.vtype ≠ .MinKey) (hl2 : l.vtype ≠ .MaxKey)
    (hr1 : r.vtype ≠ .MinKey) (hr2 : r.vtype ≠ .MaxKey) :
    sliceCompare l r = .ok (typeOrd l.vtype - typeOrd r.vtype) := by
  cases l <;> cases r <;>
    simp_all [sliceCompare, scalarCompare, VSlice.vtype, valueTypeGroup, typeOrd]

/-- C1 (witness): the amended rule applied to null versus a string. -/
theorem c1_category_ranking_witness :
    valueTypeGroup VSlice.vNull.vtype ≠ valueTypeGroup (VSlice.vString []).vtype ∧
    sliceCompare .vNull (.vString []) = .ok (typeOrd .Null - typeOrd .String) :=
  ⟨by decide,
   c1_category_ranking_amended .vNull (.vString []) (by decide) (by decide) (by decide)
     (by decide) (by decide)⟩

/-- C2: an unsigned integer above the signed 64-bit range compared against a
signed integer reaches `left.getInt()` (json.cpp:229), which fails with
vpack's `NumberOutOfRange`; `JsonValue::compare` has no handler, so in the
C++ code this failure escapes the public entry point as an exception. -/
theorem c2_compare_uncaught_overflow :
    JsonValue.compare (.from_uint (2 ^ 63)) (.from_int 1) = .error .NumberOutOfRange := by
  decide

/-- C3 (counterexample): equal-type integers are compared by subtraction, so
`compare(from_int 5, from_int 3)` returns 2, which is not in `{-1, 0, 1}`. -/
theorem c3_result_set_counterexample :
    JsonValue.compare (.from_int 5) (.from_int 3) = .ok 2 ∧
    ¬((2 : Int) = -1 ∨ (2 : Int) = 0 ∨ (2 : Int) = 1) := by
  decide

/-- C3 (amended): `compare` does not confine its result to `{-1, 0, 1}`, and
the truncation of the 64-bit difference to the C `int` return type can even
flip or erase the sign: equal-type and mixed signed/unsigned integer
comparisons return `wrap32 (getInt l - getInt r)` (so `2 ^ 31 - 0` comes back
as `-2 ^ 31` and `2 ^ 32 - 0` as `0`), string comparisons return the
byte/length difference of `strCompare`, mismatched non-sentinel kinds return
the type-ordinal difference, and only the double branch (via `cmpDouble`) and
the bool branch are always confined to `{-1, 0, 1}`. -/
theorem c3_result_set_amended :
    (∀ a b : Int,
      sliceCompare (.vInt a) (.vInt b) = .ok (wrap32 (a - b)) ∧
      sliceCompare (.vSmallInt a) (.vSmallInt b) = .ok (wrap32 (a - b))) ∧
    (∀ (a : Int) (b : Nat), (b : Int) ≤ int64Max →
      sliceCompare (.vInt a) (.vUInt b) = .ok (wrap32 (a - b)) ∧
      sliceCompare (.vUInt b) (.vInt a) = .ok (wrap32 ((b : Int) - a))) ∧
    (∀ s t : List Char, sliceCompare (.vString s) (.vString t) = .ok (strCompare s t)) ∧
    (∀ l r : VSlice, valueTypeGroup l.vtype ≠ valueTypeGroup r.vtype →
      l.vtype ≠ .MinKey → r.vtype ≠ .MinKey → l.vtype ≠ .MaxKey → r.vtype ≠ .MaxKey →
      sliceCompare l r = .ok (typeOrd l.vtype - typeOrd r.vtype)) ∧
    (JsonValue.compare (.from_int (2 ^ 31)) (.from_int 0) = .ok (-2 ^ 31) ∧
     JsonValue.compare (.from_int (2 ^ 32)) (.from_int 0) = .ok 0) ∧
    (∀ a b : Option ℚ,
      sliceCompare (.vDouble a) (.vDouble b) = .ok (cmpDouble a b) ∧
      (cmpDouble a b = -1 ∨ cmpDouble a b = 0 ∨ cmpDouble a b = 1)) ∧
    (∀ x y : Bool,
      sliceCompare (.vBool x) (.vBool y) = .ok (boolInt x - boolInt y) ∧
      (boolInt x - boolInt y = -1 ∨ boolInt x - boolInt y = 0 ∨ boolInt x - boolInt y = 1)) := by
  refine ⟨?_, ?_, ?_, ?_, ⟨by decide, by decide⟩, ?_, ?_⟩
  · intro a b
    exact ⟨rfl, rfl⟩
  · intro a b hb
    have hb2 : getIntSlice (.vUInt b) = .ok (b : Int) := by
      show (if (b : Int) ≤ int64Max then Except.ok (b : Int)
            else Except.error VErr.NumberOutOfRange) = Except.ok (b : Int)
      rw [if_pos hb]
    constructor
    · show (match getIntSlice (.vInt a), getIntSlice (.vUInt b) with
            | .ok x, .ok y => Except.ok (wrap32 (x - y))
            | .error e, _ => Except.error e
            | _, .error e => Except.error e) = Except.ok (wrap32 (a - (b : Int)))
      rw [hb2]
      rfl
    · show (match getIntSlice (.vUInt b), getIntSlice (.vInt a) with
            | .ok x, .ok y => Except.ok (wrap32 (x - y))
            | .error e, _ => Except.error e
            | _, .error e => Except.error e) = Except.ok (wrap32 ((b : Int) - a))
      rw [hb2]
      rfl
  · intro s t
    rfl
  · intro l r hg h1 h2 h3 h4
    have hs : sliceCompare l r = scalarCompare l r := by
      cases l <;> cases r <;> first | rfl | exact absurd rfl hg
    rw [hs]
    unfold scalarCompare
    rw [if_neg hg, if_neg h1, if_neg h2, if_neg h3, if_neg h4]
  · intro a b
    refine ⟨rfl, ?_⟩
    rcases a with _ | x <;> rcases b with _ | y <;> simp [cmpDouble]
    rcases lt_trichotomy x y with h | h | h
    · simp [h]
    · subst h; simp
    · simp [h, lt_asymm h]
  · decide

/-- C3 witness: the amended rules evaluated at concrete inputs - a mixed
signed/unsigned integer pair inside the signed 64-bit range compared by
truncated subtraction, and a kind mismatch (int vs array) compared by the
type-ordinal difference. -/
theorem c3_result_set_witness :
    ((3 : Int) ≤ int64Max ∧
      sliceCompare (.vInt 7) (.vUInt 3) = .ok (wrap32 (7 - 3))) ∧
    (valueTypeGroup (VSlice.vInt 1).vtype ≠ valueTypeGroup (VSlice.vArray .nil).vtype ∧
      sliceCompare (.vInt 1) (.vArray .nil) =
        .ok (typeOrd (VSlice.vInt 1).vtype - typeOrd (VSlice.vArray .nil).vtype)) :=
  ⟨⟨by decide, (c3_result_set_amended.2.1 7 3 (by decide)).1⟩,
   ⟨by decide, c3_result_set_amended.2.2.2.1 (.vInt 1) (.vArray .nil)
      (by decide) (by decide) (by decide) (by decide) (by decide)⟩⟩

/-- C6 (counterexample): a signed-int/unsigned-int mix is not coerced to
double; it is compared by signed subtraction, giving -5 where the double rule
(`cmpDouble`) gives -1. -/
theorem c6_numeric_coercion_counterexample :
    JsonValue.compare (.from_int 5) (.from_uint 10) = .ok (-5) ∧
    cmpDouble (some 5) (some 10) = -1 ∧
    JsonValue.compare (.from_int 5) (.from_uint 10) ≠ .ok (cmpDouble (some 5) (some 10)) := by
  decide

/-- C6 (amended): for numeric operands of different stored subtypes, the
double coercion applies only when at least one side is a `Double`; a pair of
integer subtypes (signed/unsigned in any order) is compared by signed 64-bit
subtraction via `getInt`, which can itself fail on huge unsigned values. -/
theorem c6_numeric_coercion_amended (l r : VSlice)
    (hln : l.isNumberSlice = true) (hrn : r.isNumberSlice = true)
    (hne : l.vtype ≠ r.vtype) :
    (l.isIntegerSlice = true → r.isIntegerSlice = true →
      sliceCompare l r = intPairCompare l r) ∧
    (¬(l.isIntegerSlice = true ∧ r.isIntegerSlice = true) →
      sliceCompare l r = doublePairCompare l r) := by
  cases l <;> cases r <;>
    simp_all [sliceCompare, scalarCompare, intPairCompare, doublePairCompare,
      VSlice.vtype, VSlice.isNumberSlice, VSlice.isIntegerSlice, valueTypeGroup]

/-- C6 (witness): the cross-subtype equality scenario `from_int 3` versus
`from_double 3.0`, through the amended rule's double branch. -/
theorem c6_numeric_coercion_witness :
    (JsonValue.from_int 3).isNumberSlice = true ∧
    (JsonValue.from_double (some 3)).isNumberSlice = true ∧
    sliceCompare (JsonValue.from_int 3) (JsonValue.from_double (some 3)) = .ok 0 := by
  refine ⟨by decide, by decide, ?_⟩
  have h :=
    (c6_numeric_coercion_amended (JsonValue.from_int 3) (JsonValue.from_double (some 3))
      (by decide) (by decide) (by decide)).2 (by decide)
  rw [h]; decide

/-- C9 (counterexample): `compare(MinKey, MinKey)` falls into the equal-type
branch, whose default case returns 0, so MinKey does not compare below
everything "including the sentinels themselves". -/
theorem c9_sentinel_bounds_counterexample :
    sliceCompare .vMinKey .vMinKey = .ok 0 ∧ ¬((0 : Int) < 0) := by
  decide

/-- C9 (amended): `MinKey` compares below and `MaxKey` above every value
other than the sentinel itself; a sentinel compared with itself gives 0. -/
theorem c9_sentinel_bounds_amended (v : VSlice) :
    (v ≠ .vMinKey → sliceCompare .vMinKey v = .ok (-1)) ∧
    (v ≠ .vMaxKey → sliceCompare .vMaxKey v = .ok 1) ∧
    sliceCompare .vMinKey .vMinKey = .ok 0 ∧
    sliceCompare .vMaxKey .vMaxKey = .ok 0 := by
  cases v <;>
    first
    | exact ⟨fun _ => rfl, fun _ => rfl, rfl, rfl⟩
    | exact ⟨fun h => absurd rfl h, fun _ => rfl, rfl, rfl⟩
    | exact ⟨fun _ => rfl, fun h => absurd rfl h, rfl, rfl⟩

/-- C9 (witness): the sentinel bounds at a null operand. -/
theorem c9_sentinel_bounds_witness :
    sliceCompare .vMinKey .vNull = .ok (-1) ∧ sliceCompare .vMaxKey .vNull = .ok 1 :=
  ⟨(c9_sentinel_bounds_amended .vNull).1 (by decide),
   (c9_sentinel_bounds_amended .vNull).2.1 (by decide)⟩

theorem objLoop_eq_spec : ∀ fs gs : VFields,
    sliceCompare (.vObject fs) (.vObject gs) = objectCompareSpec fs gs
  | .nil, _ => rfl
  | .cons k v fs, gs => by
    show objLoop (.cons k v fs) gs = _
    have ih := objLoop_eq_spec fs gs
    simp only [objLoop, objectCompareSpec,
      show objLoop fs gs = objectCompareSpec fs gs from ih]
    cases lookupField gs k <;> rfl

theorem vget?_none_drop : ∀ (ys : VList) (idx : Nat), vget? ys idx = none →
    vdrop idx ys = .nil
  | .nil, idx, _ => by cases idx <;> rfl
  | .cons y ys, 0, h => by simp [vget?] at h
  | .cons y ys, n + 1, h => vget?_none_drop ys n h

theorem vget?_some_drop : ∀ (ys : VList) (idx : Nat) (y : VSlice),
    vget? ys idx = some y → vdrop idx ys = .cons y (vdrop (idx + 1) ys)
  | .nil, idx, y, h => by simp [vget?] at h
  | .cons z ys, 0, y, h => by
    simp only [vget?, Option.some.injEq] at h
    cases h
    rfl
  | .cons z ys, n + 1, y, h => vget?_some_drop ys n y h

theorem vdrop_nil_succ : ∀ (ys : VList) (idx : Nat), vdrop idx ys = .nil →
    vdrop (idx + 1) ys = .nil
  | .nil, _, _ => rfl
  | .cons y ys, 0, h => by simp [vdrop] at h
  | .cons y ys, n + 1, h => vdrop_nil_succ ys n h

theorem arrayCompareSpec_nil (xs : VList) : arrayCompareSpec xs .nil = .ok 0 := by
  cases xs <;> rfl

theorem arrayLoop_drop : ∀ (xs ys : VList) (idx : Nat),
    arrayLoop xs ys idx = arrayCompareSpec xs (vdrop idx ys)
  | .nil, ys, idx => by cases vdrop idx ys <;> rfl
  | .cons x xs, ys, idx => by
    have ih := arrayLoop_drop xs ys (idx + 1)
    cases h : vget? ys idx with
    | none =>
      rw [vget?_none_drop ys idx h, arrayCompareSpec_nil]
      simp only [arrayLoop, h, ih, vdrop_nil_succ ys idx (vget?_none_drop ys idx h),
        arrayCompareSpec_nil]
    | some y =>
      rw [vget?_some_drop ys idx y h]
      simp only [arrayLoop, h, arrayCompareSpec, ih]

/-- C4: object comparison follows the spec's asymmetric policy, and the
scenario `compare(parse({"a":1}), parse({"a":1,"b":2})) == 0` holds. -/
theorem c4_object_asymmetric_policy :
    (∀ fs gs : VFields,
      sliceCompare (.vObject fs) (.vObject gs) = objectCompareSpec fs gs) ∧
    JsonValue.parse ['\x7b', '"', 'a', '"', ':', '1', '\x7d'] =
      .ok (.vObject (.cons ['a'] (.vSmallInt 1) .nil)) ∧
    JsonValue.parse
        ['\x7b', '"', 'a', '"', ':', '1', ',', '"', 'b', '"', ':', '2', '\x7d'] =
      .ok (.vObject (.cons ['a'] (.vSmallInt 1) (.cons ['b'] (.vSmallInt 2) .nil))) ∧
    JsonValue.compare (.vObject (.cons ['a'] (.vSmallInt 1) .nil))
        (.vObject (.cons ['a'] (.vSmallInt 1) (.cons ['b'] (.vSmallInt 2) .nil))) =
      .ok 0 := by
  refine ⟨objLoop_eq_spec, by decide, by decide, by decide⟩

/-- C5: array comparison follows the spec's prefix-only policy, and both
scenarios `compare(parse([1,2]), parse([1,2,3])) == 0` and
`compare(parse([1,2,3]), parse([1,2])) == 0` hold. -/
theorem c5_array_prefix_policy :
    (∀ xs ys : VList,
      sliceCompare (.vArray xs) (.vArray ys) = arrayCompareSpec xs ys) ∧
    JsonValue.parse ['[', '1', ',', '2', ']'] =
      .ok (.vArray (.cons (.vSmallInt 1) (.cons (.vSmallInt 2) .nil))) ∧
    JsonValue.parse ['[', '1', ',', '2', ',', '3', ']'] =
      .ok (.vArray (.cons (.vSmallInt 1) (.cons (.vSmallInt 2) (.cons (.vSmallInt 3) .nil)))) ∧
    JsonValue.compare (.vArray (.cons (.vSmallInt 1) (.cons (.vSmallInt 2) .nil)))
        (.vArray (.cons (.vSmallInt 1) (.cons (.vSmallInt 2) (.cons (.vSmallInt 3) .nil)))) =
      .ok 0 ∧
    JsonValue.compare
        (.vArray (.cons (.vSmallInt 1) (.cons (.vSmallInt 2) (.cons (.vSmallInt 3) .nil))))
        (.vArray (.cons (.vSmallInt 1) (.cons (.vSmallInt 2) .nil))) =
      .ok 0 := by
  refine ⟨fun xs ys => ?_, by decide, by decide, by decide, by decide⟩
  show arrayLoop xs ys 0 = arrayCompareSpec xs ys
  have h := arrayLoop_drop xs ys 0
  simpa [vdrop] using h

/-- C8: parsing empty input succeeds with the absent value, whose type tag is
the distinct absent tag, different from the null tag of `from_null()`. -/
theorem c8_parse_empty_absent :
    JsonValue.parse [] = .ok .vNone ∧
    JsonValue.get_type .vNone = .jsonAbsent ∧
    JsonValue.get_type JsonValue.from_null = .jsonNull ∧
    JsonType.jsonAbsent ≠ JsonType.jsonNull := by
  decide

/-- C10: `is_null()` is false on the absent value produced by parsing empty
input and true on `from_null()`. -/
theorem c10_is_null_absent :
    JsonValue.parse [] = .ok .vNone ∧
    JsonValue.is_null .vNone = false ∧
    JsonValue.is_null JsonValue.from_null = true := by
  decide

/-! ### Round-trip lemmas: digits and numbers -/

theorem isDigitC_not_special {c : Char} (h : isDigitC c = true) :
    isWs c = false ∧ c ≠ 'n' ∧ c ≠ 't' ∧ c ≠ 'f' ∧ c ≠ '"' ∧ c ≠ '[' ∧ c ≠ '\x7b' ∧
    c ≠ ']' ∧ c ≠ '\x7d' ∧ c ≠ ',' ∧ c ≠ '.' ∧ c ≠ '-' ∧ c ≠ '\\' := by
  refine ⟨?_, ?_, ?_, ?_, ?_, ?_, ?_, ?_, ?_, ?_, ?_, ?_, ?_⟩
  · cases hw : isWs c
    · rfl
    · exfalso
      have hw' := hw
      simp only [isWs, Bool.or_eq_true, decide_eq_true_eq] at hw'
      rcases hw' with ((h1 | h1) | h1) | h1 <;> (subst h1; exact absurd h (by decide))
  all_goals intro he; subst he; exact absurd h (by decide)

theorem digitVal_digitChar : ∀ d : Nat, d < 10 → digitVal (digitChar d) = d := by decide

theorem isDigitC_digitChar : ∀ d : Nat, d < 10 → isDigitC (digitChar d) = true := by decide

theorem hexVal_hexDigitChar : ∀ d : Nat, d < 16 → hexVal (hexDigitChar d) = some d := by decide

theorem natDigits_digits {n : Nat} : ∀ c ∈ natDigits n, isDigitC c = true := by
  intro c hc
  unfold natDigits at hc
  split at hc
  · simp at hc; subst hc; decide
  · obtain ⟨d, hd, rfl⟩ := List.mem_map.1 hc
    exact isDigitC_digitChar d (Nat.digits_lt_base (by norm_num) (List.mem_reverse.1 hd))

theorem natDigits_ne_nil (n : Nat) : natDigits n ≠ [] := by
  unfold natDigits
  split
  · simp
  · rename_i hn
    simp only [ne_eq, List.map_eq_nil_iff, List.reverse_eq_nil_iff]
    exact Nat.digits_ne_nil_iff_ne_zero.2 hn

theorem digitsVal_go :
    ∀ (l : List Nat) (acc : Nat), (∀ d ∈ l, d < 10) →
      List.foldl (fun a c => a * 10 + digitVal c) acc (l.reverse.map digitChar) =
        acc * 10 ^ l.length + Nat.ofDigits 10 l := by
  intro l
  induction l with
  | nil => intro acc _; simp [Nat.ofDigits]
  | cons d t ih =>
    intro acc hall
    rw [List.reverse_cons, List.map_append, List.foldl_append]
    simp only [List.map_cons, List.map_nil, List.foldl_cons, List.foldl_nil]
    rw [ih acc (fun x hx => hall x (List.mem_cons_of_mem _ hx)),
      digitVal_digitChar d (hall d (List.mem_cons_self _ _)), Nat.ofDigits_cons]
    simp only [List.length_cons, pow_succ]
    ring

theorem digitsVal_natDigits (n : Nat) : digitsVal (natDigits n) = n := by
  unfold natDigits digitsVal
  split
  · rename_i h
    subst h
    decide
  · have h := digitsVal_go (Nat.digits 10 n) 0
      (fun d hd => Nat.digits_lt_base (by norm_num) hd)
    simpa [Nat.ofDigits_digits] using h

theorem digitsVal_acc (b : List Char) :
    ∀ acc : Nat,
      List.foldl (fun a c => a * 10 + digitVal c) acc b = acc * 10 ^ b.length + digitsVal b := by
  induction b with
  | nil => intro acc; simp [digitsVal]
  | cons c t ih =>
    intro acc
    rw [List.foldl_cons, ih (acc * 10 + digitVal c)]
    have h2 : digitsVal (c :: t) = digitVal c * 10 ^ t.length + digitsVal t := by
      show (c :: t).foldl (fun a c => a * 10 + digitVal c) 0 =
        digitVal c * 10 ^ t.length + digitsVal t
      rw [List.foldl_cons, ih (0 * 10 + digitVal c)]
      ring
    rw [h2, List.length_cons, pow_succ]
    ring

theorem digitsVal_append (a b : List Char) :
    digitsVal (a ++ b) = digitsVal a * 10 ^ b.length + digitsVal b := by
  unfold digitsVal
  rw [List.foldl_append]
  exact digitsVal_acc b _

theorem digitsVal_replicate_zero (z : Nat) (l : List Char) :
    digitsVal (List.replicate z '0' ++ l) = digitsVal l := by
  induction z with
  | zero => simp
  | succ z ih =>
    rw [List.replicate_succ, List.cons_append]
    show List.foldl _ (0 * 10 + digitVal '0') _ = _
    have h0 : (0 : Nat) * 10 + digitVal '0' = 0 := by decide
    rw [h0]
    exact ih

theorem takeWhile_append_all {p : Char → Bool} :
    ∀ l rest : List Char, (∀ c ∈ l, p c = true) →
      (rest = [] ∨ ∃ c t, rest = c :: t ∧ p c = false) →
      (l ++ rest).takeWhile p = l ∧ (l ++ rest).dropWhile p = rest := by
  intro l
  induction l with
  | nil =>
    intro rest _ hr
    rcases hr with rfl | ⟨c, t, rfl, hc⟩
    · simp
    · constructor
      · rw [List.nil_append, List.takeWhile_cons_of_neg (by simp [hc])]
      · rw [List.nil_append, List.dropWhile_cons_of_neg (by simp [hc])]
  | cons a l ih =>
    intro rest hall hr
    have ha := hall a (List.mem_cons_self _ _)
    have hrec := ih rest (fun c hc => hall c (List.mem_cons_of_mem _ hc)) hr
    constructor
    · rw [List.cons_append, List.takeWhile_cons_of_pos ha, hrec.1]
    · rw [List.cons_append, List.dropWhile_cons_of_pos ha, hrec.2]

theorem itemDelim_cases {rest : List Char} (h : itemDelim rest = true) :
    rest = [] ∨ ∃ c t, rest = c :: t ∧ isDigitC c = false ∧ c ≠ '.' := by
  cases rest with
  | nil => exact Or.inl rfl
  | cons c t =>
    right
    simp only [itemDelim, Bool.or_eq_true, decide_eq_true_eq] at h
    rcases h with (h1 | h1) | h1 <;> (subst h1; exact ⟨_, _, rfl, by decide, by decide⟩)

theorem splitSign_not_minus {c : Char} (t : List Char) (h : c ≠ '-') :
    splitSign (c :: t) = (false, c :: t) := by
  unfold splitSign
  split
  · rename_i heq
    injection heq with h1 h2
    exact absurd h1 h
  · rfl

theorem parseNumberBody_natDigits (neg : Bool) (m : Nat) (rest : List Char)
    (hrest : itemDelim rest = true) :
    parseNumberBody neg (natDigits m ++ rest) =
      some (mkIntSlice (if neg then -(m : Int) else (m : Int)), rest) := by
  have hdig : ∀ c ∈ natDigits m, isDigitC c = true := natDigits_digits
  have htake := takeWhile_append_all (p := isDigitC) (natDigits m) rest hdig
    ((itemDelim_cases hrest).imp id (fun ⟨c, t, h1, h2, _⟩ => ⟨c, t, h1, h2⟩))
  have hval : digitsVal (natDigits m) = m := digitsVal_natDigits _
  have hne : (natDigits m).isEmpty = false := by
    obtain ⟨c, t, hct⟩ := List.exists_cons_of_ne_nil (natDigits_ne_nil m)
    rw [hct]; rfl
  unfold parseNumberBody
  simp only [htake.1, htake.2, hne, Bool.false_eq_true, if_false]
  rcases itemDelim_cases hrest with rfl | ⟨c2, t2, rfl, hd2, hdot2⟩
  · simp [hval]
  · split
    · rename_i heq
      injection heq with he1 he2
      exact absurd he1 hdot2
    · simp [hval]

theorem parseNumber_renderInt (n : Int) (rest : List Char) (hrest : itemDelim rest = true) :
    parseNumber (renderInt n ++ rest) = some (mkIntSlice n, rest) := by
  by_cases hn : n < 0
  · have hrw : renderInt n ++ rest = '-' :: (natDigits n.natAbs ++ rest) := by
      simp [renderInt, hn]
    rw [hrw]
    have hpn : parseNumber ('-' :: (natDigits n.natAbs ++ rest)) =
        parseNumberBody true (natDigits n.natAbs ++ rest) := rfl
    rw [hpn, parseNumberBody_natDigits true _ rest hrest]
    have harith : -((n.natAbs : Int)) = n := by omega
    simp [harith]
    congr 1
    rw [abs_of_nonpos (le_of_lt hn)]
    ring
  · obtain ⟨c, t, hct⟩ := List.exists_cons_of_ne_nil (natDigits_ne_nil n.natAbs)
    have hcd : isDigitC c = true := natDigits_digits c (by rw [hct]; exact List.mem_cons_self _ _)
    have hcm : c ≠ '-' := (isDigitC_not_special hcd).2.2.2.2.2.2.2.2.2.2.2.1
    have hrw : renderInt n ++ rest = natDigits n.natAbs ++ rest := by
      simp [renderInt, hn]
    rw [hrw]
    have hsplit : splitSign (natDigits n.natAbs ++ rest) =
        (false, natDigits n.natAbs ++ rest) := by
      rw [hct, List.cons_append, splitSign_not_minus _ hcm]
    have hpn : parseNumber (natDigits n.natAbs ++ rest) =
        parseNumberBody false (natDigits n.natAbs ++ rest) := by
      unfold parseNumber
      rw [hsplit]
    rw [hpn, parseNumberBody_natDigits false _ rest hrest]
    have harith : ((n.natAbs : Int)) = n := by omega
    simp [harith]

/-! ### Round-trip lemmas: decimal doubles -/

theorem decExp_den {q : ℚ} {k : Nat} (h : decExp q = some k) : (q * 10 ^ k).den = 1 := by
  have h2 := List.find?_some h
  simpa using h2

theorem rat_num_cast {x : ℚ} (h : x.den = 1) : ((x.num : ℚ)) = x := by
  conv_rhs => rw [← Rat.num_div_den x]
  rw [h]
  simp

theorem toNat_num_cast {a : ℚ} {k : Nat} (ha : 0 ≤ a) (hden : (a * 10 ^ k).den = 1) :
    (((a * 10 ^ k).num.toNat : ℚ)) = a * 10 ^ k := by
  have hnn : (0 : ℚ) ≤ a * 10 ^ k := mul_nonneg ha (by positivity)
  have hnum : 0 ≤ (a * 10 ^ k).num := Rat.num_nonneg.2 hnn
  have h1 : ((a * 10 ^ k).num.toNat : Int) = (a * 10 ^ k).num := Int.toNat_of_nonneg hnum
  rw [← rat_num_cast hden]
  exact_mod_cast h1

theorem padDigits_digits {m k : Nat} : ∀ c ∈ padDigits m k, isDigitC c = true := by
  intro c hc
  rcases List.mem_append.1 hc with h | h
  · rw [List.eq_of_mem_replicate h]
    decide
  · exact natDigits_digits c h

theorem padDigits_length (m k : Nat) : k + 1 ≤ (padDigits m k).length := by
  have h1 : 1 ≤ (natDigits m).length := List.length_pos.2 (natDigits_ne_nil m)
  simp only [padDigits, List.length_append, List.length_replicate]
  omega

theorem digitsVal_padDigits (m k : Nat) : digitsVal (padDigits m k) = m := by
  rw [padDigits, digitsVal_replicate_zero, digitsVal_natDigits]

theorem parseNumberBody_decBody (a : ℚ) (k : Nat) (neg : Bool) (ha : 0 ≤ a)
    (hden : (a * 10 ^ k).den = 1) (rest : List Char) (hrest : itemDelim rest = true) :
    parseNumberBody neg (decBody a k ++ rest) =
      some (.vDouble (some (if neg then -a else a)), rest) := by
  have hm : (((a * 10 ^ k).num.toNat : ℚ)) = a * 10 ^ k := toNat_num_cast ha hden
  have hrest' : rest = [] ∨ ∃ c t, rest = c :: t ∧ isDigitC c = false :=
    (itemDelim_cases hrest).imp id (fun ⟨c, t, h1, h2, _⟩ => ⟨c, t, h1, h2⟩)
  have htr := takeWhile_append_all (p := isDigitC) [] rest (by simp) hrest'
  rw [List.nil_append] at htr
  by_cases hk : k = 0
  · subst hk
    have hbody : decBody a 0 ++ rest =
        natDigits (a * 10 ^ 0).num.toNat ++ ('.' :: '0' :: rest) := by
      unfold decBody
      rw [if_pos rfl]
      simp
    rw [hbody]
    have hdig : ∀ c ∈ natDigits (a * 10 ^ 0).num.toNat, isDigitC c = true := natDigits_digits
    have htake := takeWhile_append_all (p := isDigitC) _ ('.' :: '0' :: rest) hdig
      (Or.inr ⟨'.', '0' :: rest, rfl, by decide⟩)
    have hne : (natDigits (a * 10 ^ 0).num.toNat).isEmpty = false := by
      obtain ⟨c, t, hct⟩ := List.exists_cons_of_ne_nil (natDigits_ne_nil _)
      rw [hct]
      rfl
    unfold parseNumberBody
    simp only [htake.1, htake.2, hne, Bool.false_eq_true, if_false]
    have h0 : isDigitC '0' = true := by decide
    have h00 : digitVal '0' = 0 := by decide
    have hm0 : ((a.num.toNat : ℚ)) = a := by simpa using hm
    simp only [List.takeWhile_cons_of_pos h0, List.dropWhile_cons_of_pos h0, htr.1, htr.2,
      digitsVal_natDigits]
    cases neg <;> simp [digitsVal, h00, hm0]
  · have hL : k + 1 ≤ (padDigits (a * 10 ^ k).num.toNat k).length :=
      padDigits_length (a * 10 ^ k).num.toNat k
    have hbody : decBody a k ++ rest =
        (padDigits (a * 10 ^ k).num.toNat k).take
            ((padDigits (a * 10 ^ k).num.toNat k).length - k) ++
          ('.' :: ((padDigits (a * 10 ^ k).num.toNat k).drop
            ((padDigits (a * 10 ^ k).num.toNat k).length - k) ++ rest)) := by
      unfold decBody
      rw [if_neg hk]
      simp
    rw [hbody]
    have hdigP : ∀ c ∈ padDigits (a * 10 ^ k).num.toNat k, isDigitC c = true := padDigits_digits
    have hdigI : ∀ c ∈ (padDigits (a * 10 ^ k).num.toNat k).take
        ((padDigits (a * 10 ^ k).num.toNat k).length - k), isDigitC c = true :=
      fun c hc => hdigP c (List.take_subset _ _ hc)
    have hdigF : ∀ c ∈ (padDigits (a * 10 ^ k).num.toNat k).drop
        ((padDigits (a * 10 ^ k).num.toNat k).length - k), isDigitC c = true :=
      fun c hc => hdigP c (List.drop_subset _ _ hc)
    have htakeI := takeWhile_append_all (p := isDigitC)
      ((padDigits (a * 10 ^ k).num.toNat k).take
        ((padDigits (a * 10 ^ k).num.toNat k).length - k))
      ('.' :: ((padDigits (a * 10 ^ k).num.toNat k).drop
        ((padDigits (a * 10 ^ k).num.toNat k).length - k) ++ rest))
      hdigI
      (Or.inr ⟨'.', (padDigits (a * 10 ^ k).num.toNat k).drop
        ((padDigits (a * 10 ^ k).num.toNat k).length - k) ++ rest, rfl, by decide⟩)
    have htakeF := takeWhile_append_all (p := isDigitC)
      ((padDigits (a * 10 ^ k).num.toNat k).drop
        ((padDigits (a * 10 ^ k).num.toNat k).length - k))
      rest hdigF hrest'
    have hlenI : 1 ≤ ((padDigits (a * 10 ^ k).num.toNat k).take
        ((padDigits (a * 10 ^ k).num.toNat k).length - k)).length := by
      rw [List.length_take]
      omega
    have hneI : ((padDigits (a * 10 ^ k).num.toNat k).take
        ((padDigits (a * 10 ^ k).num.toNat k).length - k)).isEmpty = false := by
      have hne' : (padDigits (a * 10 ^ k).num.toNat k).take
          ((padDigits (a * 10 ^ k).num.toNat k).length - k) ≠ [] :=
        List.ne_nil_of_length_pos (by omega)
      obtain ⟨c, t, hct⟩ := List.exists_cons_of_ne_nil hne'
      rw [hct]
      rfl
    have hlenF : ((padDigits (a * 10 ^ k).num.toNat k).drop
        ((padDigits (a * 10 ^ k).num.toNat k).length - k)).length = k := by
      rw [List.length_drop]
      omega
    have hneF : ((padDigits (a * 10 ^ k).num.toNat k).drop
        ((padDigits (a * 10 ^ k).num.toNat k).length - k)).isEmpty = false := by
      have hne' : (padDigits (a * 10 ^ k).num.toNat k).drop
          ((padDigits (a * 10 ^ k).num.toNat k).length - k) ≠ [] :=
        List.ne_nil_of_length_pos (by omega)
      obtain ⟨c, t, hct⟩ := List.exists_cons_of_ne_nil hne'
      rw [hct]
      rfl
    have hsum : digitsVal ((padDigits (a * 10 ^ k).num.toNat k).take
          ((padDigits (a * 10 ^ k).num.toNat k).length - k)) * 10 ^ k +
        digitsVal ((padDigits (a * 10 ^ k).num.toNat k).drop
          ((padDigits (a * 10 ^ k).num.toNat k).length - k)) =
        (a * 10 ^ k).num.toNat := by
      have h1 := digitsVal_append
        ((padDigits (a * 10 ^ k).num.toNat k).take
          ((padDigits (a * 10 ^ k).num.toNat k).length - k))
        ((padDigits (a * 10 ^ k).num.toNat k).drop
          ((padDigits (a * 10 ^ k).num.toNat k).length - k))
      rw [List.take_append_drop, digitsVal_padDigits, hlenF] at h1
      omega
    unfold parseNumberBody
    simp only [htakeI.1, htakeI.2, hneI, Bool.false_eq_true, if_false]
    simp only [htakeF.1, htakeF.2, hneF, Bool.false_eq_true, if_false]
    have hval : ((digitsVal ((padDigits (a * 10 ^ k).num.toNat k).take
          ((padDigits (a * 10 ^ k).num.toNat k).length - k)) : ℚ)) +
        ((digitsVal ((padDigits (a * 10 ^ k).num.toNat k).drop
          ((padDigits (a * 10 ^ k).num.toNat k).length - k)) : ℚ)) /
          10 ^ ((padDigits (a * 10 ^ k).num.toNat k).drop
            ((padDigits (a * 10 ^ k).num.toNat k).length - k)).length = a := by
      rw [hlenF]
      have h10 : ((10 : ℚ)) ^ k ≠ 0 := by positivity
      have hcast : ((digitsVal ((padDigits (a * 10 ^ k).num.toNat k).take
            ((padDigits (a * 10 ^ k).num.toNat k).length - k)) : ℚ)) * 10 ^ k +
          ((digitsVal ((padDigits (a * 10 ^ k).num.toNat k).drop
            ((padDigits (a * 10 ^ k).num.toNat k).length - k)) : ℚ)) = a * 10 ^ k := by
        have hq1 : ((digitsVal ((padDigits (a * 10 ^ k).num.toNat k).take
              ((padDigits (a * 10 ^ k).num.toNat k).length - k)) * 10 ^ k +
            digitsVal ((padDigits (a * 10 ^ k).num.toNat k).drop
              ((padDigits (a * 10 ^ k).num.toNat k).length - k)) : Nat) : ℚ) =
            (((a * 10 ^ k).num.toNat : Nat) : ℚ) := by
          exact_mod_cast congrArg (fun z : Nat => (z : ℚ)) hsum
        push_cast at hq1
        rw [hm] at hq1
        exact hq1
      field_simp
      linarith [hcast]
    rw [hval]

theorem decBody_head (a : ℚ) (k : Nat) :
    ∃ c t, decBody a k = c :: t ∧ isDigitC c = true := by
  unfold decBody
  by_cases hk : k = 0
  · subst hk
    rw [if_pos rfl]
    obtain ⟨c, t, hct⟩ := List.exists_cons_of_ne_nil (natDigits_ne_nil (a * 10 ^ 0).num.toNat)
    refine ⟨c, t ++ ['.', '0'], ?_, ?_⟩
    · rw [hct, List.cons_append]
    · exact natDigits_digits c (by rw [hct]; exact List.mem_cons_self _ _)
  · rw [if_neg hk]
    have hL : k + 1 ≤ (padDigits (a * 10 ^ k).num.toNat k).length :=
      padDigits_length (a * 10 ^ k).num.toNat k
    obtain ⟨c, t, hct⟩ := List.exists_cons_of_ne_nil
      (l := padDigits (a * 10 ^ k).num.toNat k)
      (List.ne_nil_of_length_pos (by omega))
    obtain ⟨j, hj⟩ : ∃ j, (padDigits (a * 10 ^ k).num.toNat k).length - k = j + 1 :=
      ⟨(padDigits (a * 10 ^ k).num.toNat k).length - k - 1, by omega⟩
    refine ⟨c, t.take j ++ '.' :: (padDigits (a * 10 ^ k).num.toNat k).drop
      ((padDigits (a * 10 ^ k).num.toNat k).length - k), ?_, ?_⟩
    · rw [hj]
      conv_lhs => rw [hct]
      rw [List.take_succ_cons, List.cons_append, hct]
    · exact padDigits_digits c (by rw [hct]; exact List.mem_cons_self _ _)

theorem parseNumber_renderDouble (q : ℚ) (k : Nat) (hk : decExp |q| = some k)
    (rest : List Char) (hrest : itemDelim rest = true) :
    parseNumber (renderDouble q ++ rest) = some (.vDouble (some q), rest) := by
  have ha : 0 ≤ |q| := abs_nonneg q
  have hden := decExp_den hk
  have hgetD : (decExp |q|).getD 0 = k := by rw [hk]; rfl
  by_cases hq : q < 0
  · have hr : renderDouble q ++ rest = '-' :: (decBody |q| k ++ rest) := by
      unfold renderDouble
      rw [hgetD, if_pos hq, List.cons_append]
    rw [hr]
    have hpn : parseNumber ('-' :: (decBody |q| k ++ rest)) =
        parseNumberBody true (decBody |q| k ++ rest) := rfl
    rw [hpn, parseNumberBody_decBody |q| k true ha hden rest hrest]
    simp [abs_of_neg hq]
  · have hr : renderDouble q ++ rest = decBody |q| k ++ rest := by
      unfold renderDouble
      rw [hgetD, if_neg hq]
    rw [hr]
    obtain ⟨c, t, hct, hcd⟩ := decBody_head |q| k
    have hsplit : splitSign (decBody |q| k ++ rest) = (false, decBody |q| k ++ rest) := by
      rw [hct, List.cons_append,
        splitSign_not_minus _ ((isDigitC_not_special hcd).2.2.2.2.2.2.2.2.2.2.2.1)]
    have hpn : parseNumber (decBody |q| k ++ rest) =
        parseNumberBody false (decBody |q| k ++ rest) := by
      unfold parseNumber
      rw [hsplit]
    rw [hpn, parseNumberBody_decBody |q| k false ha hden rest hrest]
    simp [abs_of_nonneg (not_lt.1 hq)]

/-! ### Round-trip lemmas: strings -/

theorem parseStrBody_escape : ∀ (s rest : List Char),
    parseStrBody (escapeStr s ++ '"' :: rest) = some (s, rest)
  | [], rest => by
    show parseStrBody ('"' :: rest) = some ([], rest)
    rw [parseStrBody.eq_def]
    simp
  | c :: s, rest => by
    have ih := parseStrBody_escape s rest
    show parseStrBody ((escChar c ++ escapeStr s) ++ '"' :: rest) = _
    rw [List.append_assoc]
    by_cases h1 : c = '"'
    · subst h1
      rw [show escChar '"' = ['\\', '"'] from rfl]
      simp only [List.cons_append, List.nil_append]
      rw [parseStrBody.eq_def]
      simp [ih]
    · by_cases h2 : c = '\\'
      · subst h2
        rw [show escChar '\\' = ['\\', '\\'] from rfl]
        simp only [List.cons_append, List.nil_append]
        rw [parseStrBody.eq_def]
        simp [ih]
      · by_cases h3 : c.toNat < 32
        · have hesc : escChar c =
              ['\\', 'u', '0', '0', hexDigitChar (c.toNat / 16), hexDigitChar (c.toNat % 16)] := by
            unfold escChar
            rw [if_neg h1, if_neg h2, if_pos h3]
          rw [hesc]
          simp only [List.cons_append, List.nil_append]
          have hx0 : hexVal '0' = some 0 := by decide
          have hx1 : hexVal (hexDigitChar (c.toNat / 16)) = some (c.toNat / 16) :=
            hexVal_hexDigitChar _ (by omega)
          have hx2 : hexVal (hexDigitChar (c.toNat % 16)) = some (c.toNat % 16) :=
            hexVal_hexDigitChar _ (by omega)
          rw [parseStrBody.eq_def]
          simp [hx0, hx1, hx2, ih]
          have hchar : c.toNat / 16 * 16 + c.toNat % 16 = c.toNat := by omega
          rw [hchar, Char.ofNat_toNat]
        · have hesc : escChar c = [c] := by
            unfold escChar
            rw [if_neg h1, if_neg h2, if_neg h3]
          rw [hesc]
          simp only [List.cons_append, List.nil_append]
          rw [parseStrBody.eq_def]
          simp [h1, h2, ih]

/-! ### Round-trip lemmas: parser unfolding and head characters -/

theorem skipWs_cons_not_ws {c : Char} (t : List Char) (h : isWs c = false) :
    skipWs (c :: t) = c :: t := by
  simp [skipWs, List.dropWhile_cons, h]

theorem parseVal_cons (f : Nat) (cs0 : List Char) (c : Char) (t : List Char)
    (hsk : skipWs cs0 = c :: t) :
    parseVal (f + 1) cs0 = valDispatch f c t := by
  have h1 : parseVal (f + 1) cs0 =
      (match skipWs cs0 with
       | [] => none
       | c :: t => valDispatch f c t) := rfl
  rw [h1, hsk]

theorem parseItems_succ (f : Nat) (cs : List Char) :
    parseItems (f + 1) cs =
      (match parseVal f cs with
       | none => none
       | some (v, r) => itemsStep f v r) := rfl

theorem parseFields_succ (f : Nat) (cs : List Char) :
    parseFields (f + 1) cs =
      (match skipWs cs with
       | '"' :: r =>
         match parseStrBody r with
         | none => none
         | some (k, r1) =>
           match skipWs r1 with
           | ':' :: r2 =>
             match parseVal f r2 with
             | none => none
             | some (v, r3) => fieldsStep f k v r3
           | _ => none
       | _ => none) := rfl

theorem parseVal_number (f : Nat) (c : Char) (t : List Char)
    (h : isDigitC c = true ∨ c = '-') :
    parseVal (f + 1) (c :: t) = parseNumber (c :: t) := by
  rcases h with h | h
  · have hs := isDigitC_not_special h
    rw [parseVal_cons f (c :: t) c t (skipWs_cons_not_ws t hs.1)]
    unfold valDispatch
    rw [if_neg hs.2.1, if_neg hs.2.2.1, if_neg hs.2.2.2.1, if_neg hs.2.2.2.2.1,
      if_neg hs.2.2.2.2.2.1, if_neg hs.2.2.2.2.2.2.1, if_pos (by simp [h])]
  · subst h
    rfl

theorem natDigits_head (m : Nat) : ∃ c t, natDigits m = c :: t ∧ isDigitC c = true := by
  obtain ⟨c, t, hct⟩ := List.exists_cons_of_ne_nil (natDigits_ne_nil m)
  exact ⟨c, t, hct, natDigits_digits c (by rw [hct]; exact List.mem_cons_self _ _)⟩

theorem renderInt_head (n : Int) :
    ∃ c t, renderInt n = c :: t ∧ (isDigitC c = true ∨ c = '-') := by
  unfold renderInt
  by_cases hn : n < 0
  · rw [if_pos hn]
    exact ⟨'-', _, rfl, Or.inr rfl⟩
  · rw [if_neg hn]
    obtain ⟨c, t, hct, hcd⟩ := natDigits_head n.natAbs
    exact ⟨c, t, hct, Or.inl hcd⟩

theorem renderDouble_head (q : ℚ) :
    ∃ c t, renderDouble q = c :: t ∧ (isDigitC c = true ∨ c = '-') := by
  unfold renderDouble
  by_cases hq : q < 0
  · rw [if_pos hq]
    exact ⟨'-', _, rfl, Or.inr rfl⟩
  · rw [if_neg hq]
    obtain ⟨c, t, hct, hcd⟩ := decBody_head |q| ((decExp |q|).getD 0)
    exact ⟨c, t, hct, Or.inl hcd⟩

theorem numHead_props {c : Char} (h : isDigitC c = true ∨ c = '-') :
    isWs c = false ∧ c ≠ ']' ∧ c ≠ '\x7d' ∧ c ≠ ',' := by
  rcases h with h | h
  · have hs := isDigitC_not_special h
    exact ⟨hs.1, hs.2.2.2.2.2.2.2.1, hs.2.2.2.2.2.2.2.2.1, hs.2.2.2.2.2.2.2.2.2.1⟩
  · subst h
    exact ⟨by decide, by decide, by decide, by decide⟩

theorem render_head (v : VSlice) (h : hasUnsupported v = false) :
    ∃ c t, render v = c :: t ∧ isWs c = false ∧ c ≠ ']' ∧ c ≠ '\x7d' ∧ c ≠ ',' := by
  cases v with
  | vNone => exact absurd h (by decide)
  | vMinKey => exact absurd h (by decide)
  | vMaxKey => exact absurd h (by decide)
  | vNull => exact ⟨'n', _, rfl, by decide, by decide, by decide, by decide⟩
  | vBool b =>
    cases b
    · exact ⟨'f', _, rfl, by decide, by decide, by decide, by decide⟩
    · exact ⟨'t', _, rfl, by decide, by decide, by decide, by decide⟩
  | vString s => exact ⟨'"', _, rfl, by decide, by decide, by decide, by decide⟩
  | vArray xs => exact ⟨'[', _, rfl, by decide, by decide, by decide, by decide⟩
  | vObject fs => exact ⟨'\x7b', _, rfl, by decide, by decide, by decide, by decide⟩
  | vSmallInt n =>
    obtain ⟨c, t, hct, hcd⟩ := renderInt_head n
    obtain ⟨p1, p2, p3, p4⟩ := numHead_props hcd
    exact ⟨c, t, hct, p1, p2, p3, p4⟩
  | vInt n =>
    obtain ⟨c, t, hct, hcd⟩ := renderInt_head n
    obtain ⟨p1, p2, p3, p4⟩ := numHead_props hcd
    exact ⟨c, t, hct, p1, p2, p3, p4⟩
  | vUInt n =>
    obtain ⟨c, t, hct, hcd⟩ := natDigits_head n
    obtain ⟨p1, p2, p3, p4⟩ := numHead_props (Or.inl hcd)
    exact ⟨c, t, hct, p1, p2, p3, p4⟩
  | vDouble q =>
    cases q with
    | none => exact absurd h (by decide)
    | some q =>
      obtain ⟨c, t, hct, hcd⟩ := renderDouble_head q
      obtain ⟨p1, p2, p3, p4⟩ := numHead_props hcd
      exact ⟨c, t, hct, p1, p2, p3, p4⟩

/-! ### The round trip: rendered text parses back -/

mutual

theorem renderParse_val : ∀ (v : VSlice), hasUnsupported v = false →
    ∀ (f : Nat) (rest : List Char), 2 * (render v).length + 1 ≤ f →
      itemDelim rest = true →
      parseVal f (render v ++ rest) = some (normSlice v, rest)
  | .vNone, h, _, _, _, _ => absurd h (by decide)
  | .vMinKey, h, _, _, _, _ => absurd h (by decide)
  | .vMaxKey, h, _, _, _, _ => absurd h (by decide)
  | .vDouble none, h, _, _, _, _ => absurd h (by decide)
  | .vNull, _, f, rest, hf, _ => by
    obtain ⟨f', rfl⟩ : ∃ f', f = f' + 1 := ⟨f - 1, by omega⟩
    rfl
  | .vBool true, _, f, rest, hf, _ => by
    obtain ⟨f', rfl⟩ : ∃ f', f = f' + 1 := ⟨f - 1, by omega⟩
    rfl
  | .vBool false, _, f, rest, hf, _ => by
    obtain ⟨f', rfl⟩ : ∃ f', f = f' + 1 := ⟨f - 1, by omega⟩
    rfl
  | .vString s, _, f, rest, hf, _ => by
    obtain ⟨f', rfl⟩ : ∃ f', f = f' + 1 := ⟨f - 1, by omega⟩
    have h1 : render (.vString s) ++ rest = '"' :: (escapeStr s ++ '"' :: rest) := by
      show ('"' :: escapeStr s ++ ['"']) ++ rest = _
      simp
    rw [h1]
    have h2 : parseVal (f' + 1) ('"' :: (escapeStr s ++ '"' :: rest)) =
        (parseStrBody (escapeStr s ++ '"' :: rest)).map
          (fun p => (VSlice.vString p.1, p.2)) := rfl
    rw [h2, parseStrBody_escape s rest]
    rfl
  | .vSmallInt n, _, f, rest, hf, hd => by
    obtain ⟨f', rfl⟩ : ∃ f', f = f' + 1 := ⟨f - 1, by omega⟩
    obtain ⟨c, t, hct, hcd⟩ := renderInt_head n
    have h1 : render (.vSmallInt n) ++ rest = c :: (t ++ rest) := by
      show renderInt n ++ rest = _
      rw [hct, List.cons_append]
    rw [h1, parseVal_number f' c (t ++ rest) hcd, ← List.cons_append, ← hct]
    show parseNumber (renderInt n ++ rest) = _
    rw [parseNumber_renderInt n rest hd]
    rfl
  | .vInt n, _, f, rest, hf, hd => by
    obtain ⟨f', rfl⟩ : ∃ f', f = f' + 1 := ⟨f - 1, by omega⟩
    obtain ⟨c, t, hct, hcd⟩ := renderInt_head n
    have h1 : render (.vInt n) ++ rest = c :: (t ++ rest) := by
      show renderInt n ++ rest = _
      rw [hct, List.cons_append]
    rw [h1, parseVal_number f' c (t ++ rest) hcd, ← List.cons_append, ← hct]
    show parseNumber (renderInt n ++ rest) = _
    rw [parseNumber_renderInt n rest hd]
    rfl
  | .vUInt n, _, f, rest, hf, hd => by
    obtain ⟨f', rfl⟩ : ∃ f', f = f' + 1 := ⟨f - 1, by omega⟩
    have hri : renderInt (n : Int) = natDigits n := by
      unfold renderInt
      rw [if_neg (not_lt.2 (Int.natCast_nonneg n)), Int.natAbs_ofNat]
    obtain ⟨c, t, hct, hcd⟩ := natDigits_head n
    have h1 : render (.vUInt n) ++ rest = c :: (t ++ rest) := by
      show natDigits n ++ rest = _
      rw [hct, List.cons_append]
    rw [h1, parseVal_number f' c (t ++ rest) (Or.inl hcd), ← List.cons_append, ← hct]
    show parseNumber (natDigits n ++ rest) = _
    rw [← hri, parseNumber_renderInt (n : Int) rest hd]
    rfl
  | .vDouble (some q), h, f, rest, hf, hd => by
    obtain ⟨f', rfl⟩ : ∃ f', f = f' + 1 := ⟨f - 1, by omega⟩
    have h' : (decExp |q|).isNone = false := h
    obtain ⟨k, hk⟩ : ∃ k, decExp |q| = some k := by
      cases hdec : decExp |q| with
      | none => rw [hdec] at h'; exact absurd h' (by decide)
      | some k => exact ⟨k, rfl⟩
    obtain ⟨c, t, hct, hcd⟩ := renderDouble_head q
    have h1 : render (.vDouble (some q)) ++ rest = c :: (t ++ rest) := by
      show renderDouble q ++ rest = _
      rw [hct, List.cons_append]
    rw [h1, parseVal_number f' c (t ++ rest) hcd, ← List.cons_append, ← hct]
    show parseNumber (renderDouble q ++ rest) = _
    rw [parseNumber_renderDouble q k hk rest hd]
    rfl
  | .vArray .nil, _, f, rest, hf, _ => by
    obtain ⟨f', rfl⟩ : ∃ f', f = f' + 1 := ⟨f - 1, by omega⟩
    rfl
  | .vArray (.cons x xs'), h, f, rest, hf, _ => by
    obtain ⟨f', rfl⟩ : ∃ f', f = f' + 1 := ⟨f - 1, by omega⟩
    have hli : hasUnsupportedList (.cons x xs') = false := h
    have hx : hasUnsupported x = false := (Bool.or_eq_false_iff.1 hli).1
    have h1 : render (.vArray (.cons x xs')) ++ rest =
        '[' :: (renderItems (.cons x xs') ++ ']' :: rest) := by
      show ('[' :: renderItems (.cons x xs') ++ [']']) ++ rest = _
      simp
    rw [h1, parseVal_cons f' _ '[' (renderItems (.cons x xs') ++ ']' :: rest)
      (skipWs_cons_not_ws _ (by decide))]
    obtain ⟨c0, t0, hct0, hws0, hrb0, _, _⟩ := render_head x hx
    obtain ⟨T, hT⟩ : ∃ T, renderItems (.cons x xs') ++ ']' :: rest = c0 :: T := by
      cases xs' with
      | nil =>
        exact ⟨t0 ++ ']' :: rest, by
          show render x ++ ']' :: rest = _
          rw [hct0, List.cons_append]⟩
      | cons y ys =>
        exact ⟨t0 ++ ',' :: renderItems (.cons y ys) ++ ']' :: rest, by
          show (render x ++ ',' :: renderItems (.cons y ys)) ++ ']' :: rest = _
          rw [hct0]
          simp⟩
    have hskB : skipWs (renderItems (.cons x xs') ++ ']' :: rest) = c0 :: T := by
      rw [hT]
      exact skipWs_cons_not_ws _ hws0
    show (match skipWs (renderItems (.cons x xs') ++ ']' :: rest) with
          | ']' :: r => some (VSlice.vArray .nil, r)
          | _ => (parseItems f' (renderItems (.cons x xs') ++ ']' :: rest)).map
              (fun (p : VList × List Char) => (VSlice.vArray p.1, p.2))) = _
    rw [hskB]
    split
    · rename_i r heq
      injection heq with heq1 _
      exact absurd heq1 hrb0
    · have hlen : (render (.vArray (.cons x xs'))).length =
          (renderItems (.cons x xs')).length + 2 := by
        show ('[' :: renderItems (.cons x xs') ++ [']']).length = _
        simp
      rw [renderParse_items (.cons x xs') (by simp) hli f' rest (by omega)]
      rfl
  | .vObject .nil, _, f, rest, hf, _ => by
    obtain ⟨f', rfl⟩ : ∃ f', f = f' + 1 := ⟨f - 1, by omega⟩
    rfl
  | .vObject (.cons k v fs'), h, f, rest, hf, _ => by
    obtain ⟨f', rfl⟩ : ∃ f', f = f' + 1 := ⟨f - 1, by omega⟩
    have hlf : hasUnsupportedFields (.cons k v fs') = false := h
    have h1 : render (.vObject (.cons k v fs')) ++ rest =
        '\x7b' :: (renderFields (.cons k v fs') ++ '\x7d' :: rest) := by
      show ('\x7b' :: renderFields (.cons k v fs') ++ ['\x7d']) ++ rest = _
      simp
    rw [h1, parseVal_cons f' _ '\x7b' (renderFields (.cons k v fs') ++ '\x7d' :: rest)
      (skipWs_cons_not_ws _ (by decide))]
    obtain ⟨T, hT⟩ : ∃ T, renderFields (.cons k v fs') ++ '\x7d' :: rest = '"' :: T := by
      cases fs' with
      | nil =>
        exact ⟨escapeStr k ++ ['"'] ++ ':' :: render v ++ '\x7d' :: rest, by
          show (('"' :: escapeStr k ++ ['"']) ++ ':' :: render v) ++ '\x7d' :: rest = _
          simp⟩
      | cons k2 v2 fs2 =>
        exact ⟨escapeStr k ++ ['"'] ++ ':' :: render v ++ ',' ::
            renderFields (.cons k2 v2 fs2) ++ '\x7d' :: rest, by
          show (('"' :: escapeStr k ++ ['"']) ++ ':' :: render v ++ ',' ::
            renderFields (.cons k2 v2 fs2)) ++ '\x7d' :: rest = _
          simp⟩
    have hskB : skipWs (renderFields (.cons k v fs') ++ '\x7d' :: rest) = '"' :: T := by
      rw [hT]
      exact skipWs_cons_not_ws _ (by decide)
    show (match skipWs (renderFields (.cons k v fs') ++ '\x7d' :: rest) with
          | '\x7d' :: r => some (VSlice.vObject .nil, r)
          | _ => (parseFields f' (renderFields (.cons k v fs') ++ '\x7d' :: rest)).map
              (fun (p : VFields × List Char) => (VSlice.vObject p.1, p.2))) = _
    rw [hskB]
    split
    · rename_i r heq
      injection heq with heq1 _
      exact absurd heq1 (by decide)
    · have hlen : (render (.vObject (.cons k v fs'))).length =
          (renderFields (.cons k v fs')).length + 2 := by
        show ('\x7b' :: renderFields (.cons k v fs') ++ ['\x7d']).length = _
        simp
      rw [renderParse_fields (.cons k v fs') (by simp) hlf f' rest (by omega)]
      rfl

theorem renderParse_items : ∀ (xs : VList), xs ≠ .nil → hasUnsupportedList xs = false →
    ∀ (f : Nat) (rest : List Char), 2 * (renderItems xs).length + 2 ≤ f →
      parseItems f (renderItems xs ++ ']' :: rest) = some (normSliceList xs, rest)
  | .nil, hne, _, _, _, _ => absurd rfl hne
  | .cons x .nil, _, hli, f, rest, hf => by
    obtain ⟨f', rfl⟩ : ∃ f', f = f' + 1 := ⟨f - 1, by omega⟩
    have hx : hasUnsupported x = false := (Bool.or_eq_false_iff.1 hli).1
    have hlen : (renderItems (.cons x .nil)).length = (render x).length := rfl
    rw [parseItems_succ]
    have h1 : renderItems (.cons x .nil) ++ ']' :: rest = render x ++ ']' :: rest := rfl
    rw [h1, renderParse_val x hx f' (']' :: rest) (by omega) rfl]
    rfl
  | .cons x (.cons y ys), _, hli, f, rest, hf => by
    obtain ⟨f', rfl⟩ : ∃ f', f = f' + 1 := ⟨f - 1, by omega⟩
    have hx : hasUnsupported x = false := (Bool.or_eq_false_iff.1 hli).1
    have hli' : hasUnsupportedList (.cons y ys) = false := (Bool.or_eq_false_iff.1 hli).2
    have hlen : (renderItems (.cons x (.cons y ys))).length =
        (render x).length + 1 + (renderItems (.cons y ys)).length := by
      show (render x ++ ',' :: renderItems (.cons y ys)).length = _
      rw [List.length_append, List.length_cons]
      omega
    have h1 : renderItems (.cons x (.cons y ys)) ++ ']' :: rest =
        render x ++ (',' :: (renderItems (.cons y ys) ++ ']' :: rest)) := by
      show (render x ++ ',' :: renderItems (.cons y ys)) ++ ']' :: rest = _
      simp
    rw [parseItems_succ, h1, renderParse_val x hx f'
      (',' :: (renderItems (.cons y ys) ++ ']' :: rest)) (by omega) rfl]
    show (match parseItems f' (renderItems (.cons y ys) ++ ']' :: rest) with
          | some (xs2, r3) => some (VList.cons (normSlice x) xs2, r3)
          | none => none) = _
    rw [renderParse_items (.cons y ys) (by simp) hli' f' rest (by omega)]
    rfl

theorem renderParse_fields : ∀ (fs : VFields), fs ≠ .nil → hasUnsupportedFields fs = false →
    ∀ (f : Nat) (rest : List Char), 2 * (renderFields fs).length + 2 ≤ f →
      parseFields f (renderFields fs ++ '\x7d' :: rest) = some (normSliceFields fs, rest)
  | .nil, hne, _, _, _, _ => absurd rfl hne
  | .cons k v .nil, _, hlf, f, rest, hf => by
    obtain ⟨f', rfl⟩ : ∃ f', f = f' + 1 := ⟨f - 1, by omega⟩
    have hv : hasUnsupported v = false := (Bool.or_eq_false_iff.1 hlf).1
    have hlen : (renderFields (.cons k v .nil)).length =
        (escapeStr k).length + 3 + (render v).length := by
      show (('"' :: escapeStr k ++ ['"']) ++ ':' :: render v).length = _
      simp only [List.length_append, List.length_cons, List.cons_append]
      simp
      omega
    rw [parseFields_succ]
    have h1 : renderFields (.cons k v .nil) ++ '\x7d' :: rest =
        '"' :: (escapeStr k ++ '"' :: (':' :: (render v ++ '\x7d' :: rest))) := by
      show (('"' :: escapeStr k ++ ['"']) ++ ':' :: render v) ++ '\x7d' :: rest = _
      simp
    rw [h1]
    show (match parseStrBody (escapeStr k ++ '"' :: (':' :: (render v ++ '\x7d' :: rest))) with
          | none => none
          | some (k2, r1) =>
            match skipWs r1 with
            | ':' :: r2 =>
              match parseVal f' r2 with
              | none => none
              | some (v2, r3) => fieldsStep f' k2 v2 r3
            | _ => none) = _
    rw [parseStrBody_escape k (':' :: (render v ++ '\x7d' :: rest))]
    show (match parseVal f' (render v ++ '\x7d' :: rest) with
          | none => none
          | some (v2, r3) => fieldsStep f' k v2 r3) = _
    rw [renderParse_val v hv f' ('\x7d' :: rest) (by omega) rfl]
    rfl
  | .cons k v (.cons k2 v2 fs2), _, hlf, f, rest, hf => by
    obtain ⟨f', rfl⟩ : ∃ f', f = f' + 1 := ⟨f - 1, by omega⟩
    have hv : hasUnsupported v = false := (Bool.or_eq_false_iff.1 hlf).1
    have hlf' : hasUnsupportedFields (.cons k2 v2 fs2) = false :=
      (Bool.or_eq_false_iff.1 hlf).2
    have e : renderFields (.cons k v (.cons k2 v2 fs2)) =
        renderStr k ++ ':' :: render v ++ ',' :: renderFields (.cons k2 v2 fs2) := rfl
    have hlen : (renderFields (.cons k v (.cons k2 v2 fs2))).length =
        (escapeStr k).length + 4 + (render v).length +
          (renderFields (.cons k2 v2 fs2)).length := by
      rw [e]
      simp only [renderStr, List.cons_append, List.append_assoc, List.length_append,
        List.length_cons, List.length_nil]
      omega
    rw [parseFields_succ]
    have h1 : renderFields (.cons k v (.cons k2 v2 fs2)) ++ '\x7d' :: rest =
        '"' :: (escapeStr k ++ '"' :: (':' :: (render v ++ ',' ::
          (renderFields (.cons k2 v2 fs2) ++ '\x7d' :: rest)))) := by
      rw [e]
      simp only [renderStr]
      simp
    rw [h1]
    show (match parseStrBody (escapeStr k ++ '"' :: (':' :: (render v ++ ',' ::
            (renderFields (.cons k2 v2 fs2) ++ '\x7d' :: rest)))) with
          | none => none
          | some (k3, r1) =>
            match skipWs r1 with
            | ':' :: r2 =>
              match parseVal f' r2 with
              | none => none
              | some (v3, r3) => fieldsStep f' k3 v3 r3
            | _ => none) = _
    rw [parseStrBody_escape k (':' :: (render v ++ ',' ::
      (renderFields (.cons k2 v2 fs2) ++ '\x7d' :: rest)))]
    show (match parseVal f' (render v ++ ',' ::
            (renderFields (.cons k2 v2 fs2) ++ '\x7d' :: rest)) with
          | none => none
          | some (v3, r3) => fieldsStep f' k v3 r3) = _
    rw [renderParse_val v hv f' (',' :: (renderFields (.cons k2 v2 fs2) ++ '\x7d' :: rest))
      (by omega) rfl]
    show (match parseFields f' (renderFields (.cons k2 v2 fs2) ++ '\x7d' :: rest) with
          | some (fsx, r5) => some (VFields.cons k (normSlice v) fsx, r5)
          | none => none) = _
    rw [renderParse_fields (.cons k2 v2 fs2) (by simp) hlf' f' rest (by omega)]
    rfl

end

theorem jsonParse_render (v : VSlice) (h : hasUnsupported v = false) :
    jsonParse (render v) = some (normSlice v) := by
  have h1 : parseVal (2 * (render v).length + 2) (render v ++ []) = some (normSlice v, []) :=
    renderParse_val v h _ [] (by omega) rfl
  rw [List.append_nil] at h1
  unfold jsonParse
  rw [h1]
  rfl

theorem deepEq_num (l r : VSlice) (hl : l.isNumberSlice = true)
    (hr : r.isNumberSlice = true) :
    deepEq l r = decide (numPayload l = numPayload r) := by
  cases l <;> cases r <;>
    first
      | rfl
      | exact Bool.noConfusion hl
      | exact Bool.noConfusion hr

theorem isNumberSlice_mkIntSlice (n : Int) : (mkIntSlice n).isNumberSlice = true := by
  unfold mkIntSlice
  split
  · split
    · rfl
    · split
      · rfl
      · rfl
  · split
    · rfl
    · rfl

theorem numPayload_mkIntSlice (n : Int) : numPayload (mkIntSlice n) = some (n : ℚ) := by
  unfold mkIntSlice
  split
  · split
    · rfl
    · split
      · rfl
      · rename_i h0 _ _
        show some ((n.toNat : ℚ)) = some ((n : ℚ))
        have h2 : ((n.toNat : Int) : ℚ) = (n : ℚ) := by
          rw [Int.toNat_of_nonneg h0]
        rw [← h2]
        norm_cast
  · split
    · rfl
    · rfl

mutual

theorem deepEq_normSlice : ∀ (v : VSlice), deepEq (normSlice v) v = true
  | .vNone => rfl
  | .vNull => rfl
  | .vMinKey => rfl
  | .vMaxKey => rfl
  | .vBool b => by cases b <;> rfl
  | .vString s => by
    have h : deepEq (normSlice (.vString s)) (.vString s) =
        decide (VSlice.vString s = VSlice.vString s) := rfl
    rw [h]
    simp
  | .vSmallInt n => by
    have h : normSlice (.vSmallInt n) = mkIntSlice n := rfl
    rw [h, deepEq_num (mkIntSlice n) (.vSmallInt n) (isNumberSlice_mkIntSlice n) rfl,
      numPayload_mkIntSlice n]
    simp [numPayload]
  | .vInt n => by
    have h : normSlice (.vInt n) = mkIntSlice n := rfl
    rw [h, deepEq_num (mkIntSlice n) (.vInt n) (isNumberSlice_mkIntSlice n) rfl,
      numPayload_mkIntSlice n]
    simp [numPayload]
  | .vUInt n => by
    have h : normSlice (.vUInt n) = mkIntSlice (n : Int) := rfl
    rw [h, deepEq_num (mkIntSlice (n : Int)) (.vUInt n) (isNumberSlice_mkIntSlice (n : Int)) rfl,
      numPayload_mkIntSlice (n : Int)]
    simp [numPayload]
  | .vDouble q => by
    have h : normSlice (.vDouble q) = .vDouble q := rfl
    rw [h, deepEq_num (.vDouble q) (.vDouble q) rfl rfl]
    simp
  | .vArray xs => by
    show deepEqList (normSliceList xs) xs = true
    exact deepEqList_normSlice xs
  | .vObject fs => by
    show deepEqFields (normSliceFields fs) fs = true
    exact deepEqFields_normSlice fs

theorem deepEqList_normSlice : ∀ (xs : VList), deepEqList (normSliceList xs) xs = true
  | .nil => rfl
  | .cons x xs => by
    show (deepEq (normSlice x) x && deepEqList (normSliceList xs) xs) = true
    rw [deepEq_normSlice x, deepEqList_normSlice xs]
    rfl

theorem deepEqFields_normSlice : ∀ (fs : VFields), deepEqFields (normSliceFields fs) fs = true
  | .nil => rfl
  | .cons k v fs => by
    show (decide (k = k) && deepEq (normSlice v) v &&
      deepEqFields (normSliceFields fs) fs) = true
    rw [deepEq_normSlice v, deepEqFields_normSlice fs]
    simp

end

/-- C7, counterexample: `from_double` can store a NaN (every scalar
constructor succeeds unconditionally, json.cpp:54), but the Dumper has no
JSON rendering for NaN, so `to_string` fails with `NoJsonEquivalent` and the
claimed universal round trip `parse(to_string(v))` deep-equal to `v` breaks
for this constructible value. -/
theorem c7_round_trip_counterexample :
    roundTrips (JsonValue.from_double none) = false ∧
    JsonValue.to_string (JsonValue.from_double none) = .error .NoJsonEquivalent := by
  decide

/-- C7 (amended): the round trip `parse(to_string(v))` deep-equal to `v`
holds for every constructible value the canonical renderer supports (no NaN
anywhere inside, which is exactly when `to_string` succeeds on a non-absent
value); and for the absent value, `to_string` returns the empty string and
`parse` of the empty string returns absent. -/
theorem c7_round_trip_amended (v : JsonValue) (h : hasUnsupported v = false) :
    roundTrips v = true ∧
    JsonValue.to_string .vNone = .ok [] ∧
    JsonValue.parse [] = .ok .vNone := by
  refine ⟨?_, rfl, rfl⟩
  have hne : v ≠ .vNone := by
    intro hv
    rw [hv] at h
    exact absurd h (by decide)
  have hts : JsonValue.to_string v = .ok (render v) := by
    simp [JsonValue.to_string, hne, h]
  obtain ⟨c, t, hct, -, -, -, -⟩ := render_head v h
  have hj : jsonParse (render v) = some (normSlice v) := jsonParse_render v h
  have hp : JsonValue.parse (render v) = .ok (normSlice v) := by
    unfold JsonValue.parse
    rw [hct] at hj ⊢
    simp [hj]
  unfold roundTrips
  rw [hts]
  show (match JsonValue.parse (render v) with
        | .ok w => deepEq w v
        | .error _ => false) = true
  rw [hp]
  exact deepEq_normSlice v

/-- C7 witness: the document `{"a":1}` (no NaN inside) round-trips, and the
absent half of the claim holds. -/
theorem c7_round_trip_witness :
    hasUnsupported (VSlice.vObject (VFields.cons ['a'] (.vSmallInt 1) .nil)) = false ∧
    (roundTrips (VSlice.vObject (VFields.cons ['a'] (.vSmallInt 1) .nil)) = true ∧
     JsonValue.to_string .vNone = .ok [] ∧
     JsonValue.parse [] = .ok .vNone) :=
  ⟨by decide,
   c7_round_trip_amended (VSlice.vObject (VFields.cons ['a'] (.vSmallInt 1) .nil)) (by decide)⟩
